import Mathlib

/-!
# Shallow embedding of `app.py` (personal expense tracker)

The program stores two CSV files, `categories.csv` (`id,nome`) and
`expenses.csv` (`id,data,descricao,valor,categoria_id,anotacao`), and
exposes Flask handlers that read, validate and rewrite them.  We embed
the stored files as lists of records (`St`), the pure helpers
(`add_category`, `delete_category`, `get_next_id`, ...) as functions on
`St`, and each HTTP handler as a function `... → St → Flash × St`.

Python built-ins are modelled explicitly:
* `pyStrip`   models `str.strip()` (core ASCII whitespace; the exotic
  Unicode whitespace Python also strips does not occur in this app).
* `pyStr` / `pyStrI` model `str(n)` on `int`.
* `pyInt?`    models `int(s)` (`none` = `ValueError`); the underscore
  separators and surrounding whitespace Python tolerates do not occur at
  the call sites, which all pass stripped fields.
* `pyFloat?`  models `float(s)` — decimal/scientific forms with
  underscore separators and the `inf`/`infinity`/`nan` special words
  (`none` = `ValueError`); finite values are idealised as exact
  rationals (`PyFloat`).
* `pyStrptimeYmd` models `datetime.strptime(s, "%Y-%m-%d")` followed by
  the `datetime` range checks, `pyStrftimeYmd` the matching `strftime`.
* `pySorted`  models Python's stable `sorted` with a boolean `≤` key
  comparison.
-/

/-- Characters of Python's `str.strip()` default set that occur here. -/
def isPySpace (c : Char) : Bool := c.isWhitespace

/-- Models Python `str.strip()`: drop whitespace from both ends. -/
def pyStrip (s : String) : String :=
  ⟨(((s.data.dropWhile isPySpace).reverse.dropWhile isPySpace).reverse)⟩

/-- Models Python `str.lower()` (character-wise lowering; the app only
compares ASCII names).  Defined on the character list so that it reduces
in the kernel. -/
def pyLower (s : String) : String := ⟨s.data.map Char.toLower⟩

/-- Decimal digit character for `d < 10`. -/
def digitChar10 (d : Nat) : Char := Char.ofNat (48 + d)

/-- Little-endian base-10 digits, with explicit fuel so that the kernel
can evaluate it (`fuel = n` always suffices). -/
def natDigitsAux : Nat → Nat → List Nat
  | 0, _ => []
  | fuel + 1, n => if n = 0 then [] else (n % 10) :: natDigitsAux fuel (n / 10)

/-- Little-endian base-10 digits of `n` (equals `Nat.digits 10 n`). -/
def natDigits (n : Nat) : List Nat := natDigitsAux n n

/-- Models Python `str(n)` for a natural number `n`. -/
def pyStr (n : Nat) : String :=
  ⟨if n = 0 then ['0'] else ((natDigits n).reverse.map digitChar10)⟩

/-- Models Python `str(i)` for an integer `i`. -/
def pyStrI (i : Int) : String :=
  if i < 0 then "-" ++ pyStr i.natAbs else pyStr i.toNat

/-- Value of a list of decimal digit characters (most significant first). -/
def digitsVal (cs : List Char) : Nat :=
  cs.foldl (fun n c => 10 * n + (c.toNat - 48)) 0

/-- `pyInt?` on the character list (optional sign, then decimal digits). -/
def pyIntAux : List Char → Option Int
  | [] => none
  | c :: cs =>
    if c = '-' then
      if cs ≠ [] ∧ cs.all Char.isDigit then some (-(digitsVal cs : Int)) else none
    else if c = '+' then
      if cs ≠ [] ∧ cs.all Char.isDigit then some (digitsVal cs : Int) else none
    else if (c :: cs).all Char.isDigit then some (digitsVal (c :: cs) : Int) else none

/-- Models Python `int(s)` (optional sign, ASCII decimal digits); `none`
models `ValueError`.  Call sites only pass stripped strings, so the
surrounding whitespace Python would also accept is not modelled; like the
rest of the embedding, non-ASCII digits are out of scope.  Underscore
separators are not modelled here: the parsed ids are all app-generated
digit strings. -/
def pyInt? (s : String) : Option Int := pyIntAux s.data

/-- A Python `float` value: finite values idealised as exact rationals,
plus the special values `float("inf")`, `float("-inf")` and
`float("nan")`. -/
inductive PyFloat where
  | finite (q : Rat)
  | inf (neg : Bool)
  | nan
deriving DecidableEq, Repr

/-- Fuelled worker for `takeDigitsU` (the fuel, one unit per consumed
character, keeps the recursion structural so the kernel can evaluate
it). -/
def takeDigitsUAux : Nat → List Char → List Char × List Char
  | 0, cs => ([], cs)
  | _ + 1, [] => ([], [])
  | fuel + 1, c :: cs =>
    if c.isDigit then
      match cs with
      | '_' :: cs2 =>
        match cs2 with
        | c2 :: rest =>
          if c2.isDigit then
            let p := takeDigitsUAux fuel (c2 :: rest)
            (c :: p.1, p.2)
          else ([c], '_' :: c2 :: rest)
        | [] => ([c], ['_'])
      | _ =>
        let p := takeDigitsUAux fuel cs
        (c :: p.1, p.2)
    else ([], c :: cs)

/-- Consume a maximal Python `digitpart` — `digit (["_"] digit)*` — from
the front of a character list, returning the digits (underscore
separators removed) and the unconsumed rest. -/
def takeDigitsU (cs : List Char) : List Char × List Char :=
  takeDigitsUAux cs.length cs

/-- Numeric part of `pyFloat?` (input without the sign): Python's
`digitpart ["." [digitpart]]` / `"." digitpart`, with an optional
exponent, all digit groups allowing single underscore separators. -/
def pyFloatCore (cs : List Char) : Option Rat :=
  let p := takeDigitsU cs
  let ip := p.1
  let q := match p.2 with
    | '.' :: r => takeDigitsU r
    | _ => ([], p.2)
  let fp := q.1
  let rest2 := q.2
  if ip = [] ∧ fp = [] then none
  else
    let mant : Rat := (digitsVal ip : Rat) + (digitsVal fp : Rat) / ((10 : Rat) ^ fp.length)
    match rest2 with
    | [] => some mant
    | e :: r =>
      if e = 'e' ∨ e = 'E' then
        let (eneg, r2) := match r with
          | '+' :: r3 => (false, r3)
          | '-' :: r3 => (true, r3)
          | _ => (false, r)
        let ep := takeDigitsU r2
        if ep.1 = [] ∨ ep.2 ≠ [] then none
        else if eneg then some (mant / ((10 : Rat) ^ digitsVal ep.1))
        else some (mant * ((10 : Rat) ^ digitsVal ep.1))
      else none

/-- The unsigned part of `pyFloat?`: a numeric literal, or one of the
case-insensitive special words `inf`/`infinity`/`nan` (the two languages
are disjoint, so trying the numeric parse first is equivalent to
Python's combined parse). -/
def pyFloatAbs (cs : List Char) (neg : Bool) : Option PyFloat :=
  match pyFloatCore cs with
  | some q => some (PyFloat.finite (if neg then -q else q))
  | none =>
    let low := cs.map Char.toLower
    if low = ['i', 'n', 'f'] ∨ low = ['i', 'n', 'f', 'i', 'n', 'i', 't', 'y'] then
      some (PyFloat.inf neg)
    else if low = ['n', 'a', 'n'] then some PyFloat.nan
    else none

/-- Sign handling of `pyFloat?` on the character list. -/
def pyFloatSignAux : List Char → Option PyFloat
  | [] => none
  | c :: cs =>
    if c = '+' then pyFloatAbs cs false
    else if c = '-' then pyFloatAbs cs true
    else pyFloatAbs (c :: cs) false

/-- Models Python `float(s)`: decimal/scientific literals with optional
underscore separators, and the `inf`/`infinity`/`nan` special words;
`none` models `ValueError`.  Finite values are idealised as exact
rationals; call sites only pass stripped strings, so the surrounding
whitespace Python would also accept is not modelled, and like the rest of
the embedding only ASCII digits are in scope. -/
def pyFloat? (s : String) : Option PyFloat := pyFloatSignAux s.data

/-- Models `s.replace(",", ".")` (single-character pattern). -/
def replaceCommaDot (s : String) : String :=
  ⟨s.data.map (fun c => if c = ',' then '.' else c)⟩

/-- Round a rational to the nearest integer, ties to even (Python's float
formatting rounding, idealised on exact rationals). -/
def roundHalfEven (q : Rat) : Int :=
  let n := q.floor
  let frac := q - (n : Rat)
  if frac < 1/2 then n
  else if 1/2 < frac then n + 1
  else if n % 2 = 0 then n else n + 1

/-- Models the Python f-string `f"{x:.2f}"`, idealised on exact rationals
(binary floating point artefacts such as `-0.00` are not modelled). -/
def formatFixed2 (q : Rat) : String :=
  let n := roundHalfEven (q * 100)
  let sign := if n < 0 then "-" else ""
  let a := n.natAbs
  sign ++ pyStr (a / 100) ++ "." ++ (if a % 100 < 10 then "0" else "") ++ pyStr (a % 100)

/-- Models `f"{x:.2f}"` on a Python float value: finite values are
formatted with two decimals, the special values render as `inf`,
`-inf` and `nan` (as CPython formats them). -/
def formatPyFloat2 : PyFloat → String
  | PyFloat.finite q => formatFixed2 q
  | PyFloat.inf neg => if neg then "-inf" else "inf"
  | PyFloat.nan => "nan"

/-- Left-pad with zeros to width `w` (as `strftime` does). -/
def padZeros (w : Nat) (s : String) : String :=
  ⟨List.replicate (w - s.length) '0'⟩ ++ s

/-- Gregorian leap-year test, as in Python's `calendar`/`datetime`. -/
def isLeapYear (y : Nat) : Bool :=
  y % 4 = 0 && (y % 100 ≠ 0 || y % 400 = 0)

/-- Days in a month, as validated by `datetime(year, month, day)`. -/
def daysInMonth (y m : Nat) : Nat :=
  if m = 2 then (if isLeapYear y then 29 else 28)
  else if m = 4 ∨ m = 6 ∨ m = 9 ∨ m = 11 then 30
  else 31

/-- Split a character list at each `'-'` (the shape of the
`"%Y-%m-%d"` format). -/
def splitDash : List Char → List (List Char)
  | [] => [[]]
  | c :: cs =>
    if c = '-' then [] :: splitDash cs
    else
      match splitDash cs with
      | [] => [[c]]
      | p :: ps => (c :: p) :: ps

/-- Models `datetime.strptime(s, "%Y-%m-%d")`: CPython's `%Y` matches
exactly 4 digits, `%m` and `%d` 1-2 digits, the whole string must be
consumed, and the resulting date must be a valid proleptic-Gregorian
date with year ≥ 1 (ASCII digits, as everywhere in the embedding). -/
def pyStrptimeYmd (s : String) : Option (Nat × Nat × Nat) :=
  match splitDash s.data with
  | [ys, ms, ds] =>
    if ys.length = 4 ∧ ys.all Char.isDigit ∧
       ms ≠ [] ∧ ms.length ≤ 2 ∧ ms.all Char.isDigit ∧
       ds ≠ [] ∧ ds.length ≤ 2 ∧ ds.all Char.isDigit then
      let y := digitsVal ys
      let m := digitsVal ms
      let d := digitsVal ds
      if 1 ≤ y ∧ 1 ≤ m ∧ m ≤ 12 ∧ 1 ≤ d ∧ d ≤ daysInMonth y m then
        some (y, m, d)
      else none
    else none
  | _ => none

/-- Models `date.strftime("%Y-%m-%d")` (zero-padded components). -/
def pyStrftimeYmd (ymd : Nat × Nat × Nat) : String :=
  padZeros 4 (pyStr ymd.1) ++ "-" ++ padZeros 2 (pyStr ymd.2.1) ++ "-" ++ padZeros 2 (pyStr ymd.2.2)

/-- Stable insertion used by `pySorted`: a later element goes after all
earlier elements that compare `≤` to it. -/
def insertLe {α : Type} (le : α → α → Bool) (a : α) : List α → List α
  | [] => [a]
  | b :: bs => if le b a then b :: insertLe le a bs else a :: b :: bs

/-- Models Python's stable `sorted` (by a boolean total-preorder `le`). -/
def pySorted {α : Type} (le : α → α → Bool) (l : List α) : List α :=
  l.foldl (fun acc x => insertLe le x acc) []

/-- Boolean `≤` on strings (Python compares strings lexicographically). -/
def strLe (a b : String) : Bool := !(decide (b < a))

/-! ## Data model

`St` is the persisted state: the parsed rows of `categories.csv` and
`expenses.csv` (in file order, header excluded).  Fields hold the raw
cell strings as written. -/

/-- A row of `categories.csv`. -/
structure Category where
  id : String
  nome : String
deriving DecidableEq, Repr

/-- A row of `expenses.csv`. -/
structure Expense where
  id : String
  data : String
  descricao : String
  valor : String
  categoria_id : String
  anotacao : String
deriving DecidableEq, Repr

/-- The two stored files. -/
structure St where
  categories : List Category
  expenses : List Expense
deriving DecidableEq, Repr

/-- Flash message category (`"success"` / `"error"`). -/
inductive FlashKind where
  | success
  | error
deriving DecidableEq, Repr

/-- A flash message as produced by the handlers. -/
structure Flash where
  message : String
  kind : FlashKind
deriving DecidableEq, Repr

/-! ## Storage helpers (`load_*`, `read_*`, id allocation) -/

/-- `load_categories_raw`: rows whose raw `id` and `nome` cells are
non-empty, with both cells stripped. -/
def load_categories_raw (st : St) : List Category :=
  (st.categories.filter (fun c => c.id ≠ "" ∧ c.nome ≠ "")).map
    (fun c => { id := pyStrip c.id, nome := pyStrip c.nome })

/-- `read_categories`: categories sorted by lower-cased name
(Python's stable `sorted` with key `c["nome"].lower()`). -/
def read_categories (st : St) : List Category :=
  pySorted (fun a b => strLe (pyLower a.nome) (pyLower b.nome)) (load_categories_raw st)

/-- `load_expenses_raw`: rows with a non-empty stripped `id`, all fields
stripped. -/
def load_expenses_raw (st : St) : List Expense :=
  (st.expenses.map (fun e =>
    { id := pyStrip e.id
      data := pyStrip e.data
      descricao := pyStrip e.descricao
      valor := pyStrip e.valor
      categoria_id := pyStrip e.categoria_id
      anotacao := pyStrip e.anotacao })).filter (fun e => e.id ≠ "")

/-- `get_next_id`: one more than the largest integer value of the given
`id` cells (unparsable cells are skipped, the running maximum starts
at `0`). -/
def get_next_id (ids : List String) : String :=
  pyStrI ((ids.foldl (fun m s =>
    match pyInt? s with
    | some v => if v > m then v else m
    | none => m) (0 : Int)) + 1)

/-- `int(c["id"])` over a list of categories; `none` models the
`ValueError` Python's `max` generator would raise. -/
def parseIds : List Category → Option (List Int)
  | [] => some []
  | c :: cs =>
    match pyInt? c.id, parseIds cs with
    | some v, some vs => some (v :: vs)
    | _, _ => none

/-- Python `max(vs, default=0)` for a parsed id list. -/
def maxListD : List Int → Int
  | [] => 0
  | v :: vs => vs.foldl max v

/-- The id `add_category` would allocate:
`str(max((int(c["id"]) for c in categories), default=0) + 1)`. -/
def nextCatId? (cats : List Category) : Option String :=
  (parseIds cats).map (fun vs => pyStrI (maxListD vs + 1))

/-- Dict lookup for a dict built by comprehension (later bindings win). -/
def dictGet (pairs : List (String × String)) (k : String) : Option String :=
  (pairs.reverse.find? (fun p => p.1 = k)).map Prod.snd

/-! ## Category operations -/

/-- `add_category`: strip the name; ignore empty and (case-insensitively)
duplicate names; otherwise append a row with the next id.  A `none` from
`nextCatId?` models the `ValueError` raised before the file is touched. -/
def add_category (nome : String) (st : St) : St :=
  let nome := pyStrip nome
  if nome = "" then st
  else
    let categories := read_categories st
    if categories.any (fun c => pyLower c.nome = pyLower nome) then st
    else
      match nextCatId? categories with
      | none => st
      | some next_id => { st with categories := st.categories ++ [{ id := next_id, nome := nome }] }

/-- `resolve_category_id`: first category (in `read_categories` order)
whose id equals the stripped input or whose name matches it
case-insensitively. -/
def resolve_category_id (identifier : String) (st : St) : Option String :=
  let identifier := pyStrip identifier
  if identifier = "" then none
  else
    let categories := read_categories st
    let lowered := pyLower identifier
    (categories.find? (fun c => identifier = c.id || lowered = pyLower c.nome)).map Category.id

/-- Rename the first category with the given id (Python mutates the first
match of its scan and breaks). -/
def renameFirst (cid novo : String) : List Category → List Category
  | [] => []
  | c :: cs => if c.id = cid then { c with nome := novo } :: cs else c :: renameFirst cid novo cs

/-- `update_category`: returns `(ok, new state)`. -/
def update_category (category_id novo_nome : String) (st : St) : Bool × St :=
  let novo_nome := pyStrip novo_nome
  if novo_nome = "" then (false, st)
  else
    let categories := load_categories_raw st
    if categories.all (fun c => c.id ≠ category_id) then (false, st)
    else if categories.any (fun c => pyLower novo_nome = pyLower c.nome && c.id ≠ category_id) then
      (false, st)
    else (true, { st with categories := renameFirst category_id novo_nome categories })

/-- `reassign_expenses_category`: move every expense of `old_id` to
`new_id`; the file is rewritten only when something changed. -/
def reassign_expenses_category (old_id new_id : String) (st : St) : St :=
  let expenses := load_expenses_raw st
  if expenses.any (fun e => e.categoria_id = old_id) then
    { st with expenses := expenses.map (fun e =>
        if e.categoria_id = old_id then { e with categoria_id := new_id } else e) }
  else st

/-- `delete_category`: refuse `"1"`; otherwise drop the rows with the id
and reassign the orphaned expenses to `"1"`. -/
def delete_category (category_id : String) (st : St) : Bool × St :=
  if category_id = "1" then (false, st)
  else
    let categories := load_categories_raw st
    let filtered := categories.filter (fun c => c.id ≠ category_id)
    if filtered.length = categories.length then (false, st)
    else
      (true, reassign_expenses_category category_id "1" { st with categories := filtered })

/-! ## Expense operations -/

/-- Update the first expense with the given id. -/
def updateFirst (eid : String) (f : Expense → Expense) : List Expense → List Expense
  | [] => []
  | e :: es => if e.id = eid then f e :: es else e :: updateFirst eid f es

/-- `update_expense`: returns `(ok, new state)`. -/
def update_expense (expense_id data descricao : String) (valor : PyFloat)
    (categoria_id anotacao : String) (st : St) : Bool × St :=
  let expenses := load_expenses_raw st
  if expenses.any (fun e => e.id = expense_id) then
    (true, { st with expenses := updateFirst expense_id (fun e =>
      { e with data := data, descricao := descricao, valor := formatPyFloat2 valor,
               categoria_id := categoria_id, anotacao := anotacao }) expenses })
  else (false, st)

/-- `delete_expense`: returns `(ok, new state)`. -/
def delete_expense (expense_id : String) (st : St) : Bool × St :=
  let expenses := load_expenses_raw st
  let filtered := expenses.filter (fun e => e.id ≠ expense_id)
  if filtered.length = expenses.length then (false, st)
  else (true, { st with expenses := filtered })

/-- `write_expense`: append a fresh row with `get_next_id` and the value
formatted as `f"{valor:.2f}"`. -/
def write_expense (data descricao : String) (valor : PyFloat)
    (categoria_id anotacao : String) (st : St) : St :=
  let expense_id := get_next_id (st.expenses.map Expense.id)
  { st with expenses := st.expenses ++
      [{ id := expense_id, data := data, descricao := descricao,
         valor := formatPyFloat2 valor, categoria_id := categoria_id, anotacao := anotacao }] }

/-! ## Display (`read_expenses`) -/

/-- A processed expense as produced by `read_expenses` for the views
(the Python dict carries the category name under both `categoria_nome`
and `categoria`). -/
structure ViewExpense where
  id : String
  data : String
  descricao : String
  valor : String
  valor_float : PyFloat
  categoria_id : String
  categoria_nome : String
  categoria : String
  anotacao : String
deriving DecidableEq, Repr

/-- `int(item["id"])` sort key of `read_expenses`; the data model
guarantees numeric ids (on a non-numeric id Python would raise). -/
def idKey (s : String) : Int := (pyInt? s).getD 0

/-- `read_expenses`: join each stored expense with its category name
(falling back to `"Categoria removida"` for an unknown — or empty-named —
category), re-parse the value, and sort by numeric id descending. -/
def read_expenses (st : St) : List ViewExpense :=
  let expenses_raw := load_expenses_raw st
  let categories := read_categories st
  let categories_by_id := categories.map (fun c => (c.id, c.nome))
  let processed := expenses_raw.map (fun e =>
    let valor_raw := replaceCommaDot (if e.valor = "" then "0" else e.valor)
    let valor_float := (pyFloat? valor_raw).getD (PyFloat.finite 0)
    let categoria_nome := match dictGet categories_by_id e.categoria_id with
      | some nome => if nome = "" then "Categoria removida" else nome
      | none => "Categoria removida"
    { id := e.id, data := e.data, descricao := e.descricao,
      valor := formatPyFloat2 valor_float, valor_float := valor_float,
      categoria_id := e.categoria_id, categoria_nome := categoria_nome,
      categoria := categoria_nome, anotacao := e.anotacao })
  pySorted (fun a b => decide (idKey b.id ≤ idKey a.id)) processed

/-! ## Schema migration of `categories.csv` (`upgrade_categories_file`) -/

/-- A CSV row every cell of which strips to empty (dropped on load). -/
def rowBlank (row : List String) : Bool :=
  row.all (fun cell => pyStrip cell = "")

/-- First-occurrence deduplication (Python's `seen` set loop). -/
def dedupKeepFirst (seen : List String) : List String → List String
  | [] => []
  | x :: xs =>
    if x ∈ seen then dedupKeepFirst seen xs
    else x :: dedupKeepFirst (x :: seen) xs

/-- The legacy names collected by `upgrade_categories_file` from the data
rows: first cell, stripped, empty ones skipped. -/
def legacyNames (rest : List (List String)) : List String :=
  rest.filterMap (fun row =>
    match row with
    | [] => none
    | cell :: _ => let name := pyStrip cell; if name = "" then none else some name)

/-- `upgrade_categories_file`, as a function on the file's rows: an empty
file is replaced by the default schema; a file whose (first non-blank)
header starts with `"id"` is left untouched; otherwise the legacy names
are deduplicated, `"Outros"` is prepended when absent, and ids `1, 2, …`
are assigned in order. -/
def upgrade_categories_rows (rows : List (List String)) : List (List String) :=
  let kept := rows.filter (fun r => !(rowBlank r))
  match kept with
  | [] => [["id", "nome"], ["1", "Outros"]]
  | header :: rest =>
    if (header.map pyStrip).headD "" = "id" then rows
    else
      let names := legacyNames rest
      let normalized := dedupKeepFirst [] names
      let normalized := if "Outros" ∈ names then normalized else "Outros" :: normalized
      ["id", "nome"] :: (List.enumFrom 1 normalized).map (fun p => [pyStr p.1, p.2])

/-! ## HTTP handlers -/

/-- A submitted form; a missing field reads as `""`
(`request.form.get(..., "")` / the final `or ""`). -/
structure Form where
  data : String := ""
  descricao : String := ""
  valor : String := ""
  categoria_id : String := ""
  categoria : String := ""
  anotacao : String := ""
deriving DecidableEq, Repr

/-- `request.form.get("categoria_id") or request.form.get("categoria") or ""`,
then stripped. -/
def formCategoria (f : Form) : String :=
  pyStrip (if f.categoria_id ≠ "" then f.categoria_id
           else if f.categoria ≠ "" then f.categoria else "")

/-- The `POST /adicionar` handler. -/
def adicionar (f : Form) (st : St) : Flash × St :=
  let data_str := pyStrip f.data
  let descricao := pyStrip f.descricao
  let valor_str := pyStrip f.valor
  let categoria_input := formCategoria f
  let anotacao := pyStrip f.anotacao
  if data_str = "" ∨ descricao = "" ∨ valor_str = "" ∨ categoria_input = "" then
    (⟨"Preencha data, descrição, valor e categoria.", .error⟩, st)
  else
    match pyStrptimeYmd data_str with
    | none => (⟨"Data inválida. Use o formato AAAA-MM-DD.", .error⟩, st)
    | some d =>
      match pyFloat? (replaceCommaDot valor_str) with
      | none => (⟨"Valor inválido.", .error⟩, st)
      | some valor =>
        match resolve_category_id categoria_input st with
        | none => (⟨"Categoria informada não foi encontrada.", .error⟩, st)
        | some categoria_id =>
          (⟨"Lançamento registrado com sucesso!", .success⟩,
           write_expense (pyStrftimeYmd d) descricao valor categoria_id anotacao st)

/-- The `POST /categorias` handler. -/
def categorias_post (nome : String) (st : St) : Flash × St :=
  if pyStrip nome = "" then (⟨"Informe um nome de categoria.", .error⟩, st)
  else (⟨"Categoria criada!", .success⟩, add_category nome st)

/-- The `POST /categorias/<id>/renomear` handler. -/
def renomear_categoria (category_id nome : String) (st : St) : Flash × St :=
  let r := update_category category_id nome st
  if r.1 then (⟨"Categoria atualizada com sucesso!", .success⟩, r.2)
  else (⟨"Não foi possível atualizar a categoria.", .error⟩, r.2)

/-- The `POST /categorias/<id>/excluir` handler. -/
def excluir_categoria (category_id : String) (st : St) : Flash × St :=
  let r := delete_category category_id st
  if r.1 then
    (⟨"Categoria removida. Lançamentos associados foram movidos para 'Outros'.", .success⟩, r.2)
  else (⟨"Não foi possível remover a categoria.", .error⟩, r.2)

/-- The `POST /lancamentos/<id>/editar` handler. -/
def editar_lancamento (expense_id : String) (f : Form) (st : St) : Flash × St :=
  let data_str := pyStrip f.data
  let descricao := pyStrip f.descricao
  let valor_str := pyStrip f.valor
  let categoria_input := formCategoria f
  let anotacao := pyStrip f.anotacao
  if data_str = "" ∨ descricao = "" ∨ valor_str = "" ∨ categoria_input = "" then
    (⟨"Preencha data, descrição, valor e categoria.", .error⟩, st)
  else
    match pyStrptimeYmd data_str with
    | none => (⟨"Data inválida. Use o formato AAAA-MM-DD.", .error⟩, st)
    | some d =>
      match pyFloat? (replaceCommaDot valor_str) with
      | none => (⟨"Valor inválido.", .error⟩, st)
      | some valor =>
        match resolve_category_id categoria_input st with
        | none => (⟨"Categoria informada não foi encontrada.", .error⟩, st)
        | some categoria_id =>
          let r := update_expense expense_id (pyStrftimeYmd d) descricao valor categoria_id
            anotacao st
          if r.1 then (⟨"Lançamento atualizado com sucesso!", .success⟩, r.2)
          else (⟨"Não foi possível atualizar o lançamento.", .error⟩, r.2)

/-- The `POST /lancamentos/<id>/excluir` handler. -/
def excluir_lancamento (expense_id : String) (st : St) : Flash × St :=
  let r := delete_expense expense_id st
  if r.1 then (⟨"Lançamento removido.", .success⟩, r.2)
  else (⟨"Não foi possível remover o lançamento.", .error⟩, r.2)

/-- A state-mutating HTTP request (the app's write endpoints). -/
inductive Op where
  | adicionar (f : Form)
  | categoriasPost (nome : String)
  | renomearCategoria (category_id nome : String)
  | excluirCategoria (category_id : String)
  | editarLancamento (expense_id : String) (f : Form)
  | excluirLancamento (expense_id : String)
deriving DecidableEq, Repr

/-- The state after serving one request. -/
def applyOp (op : Op) (st : St) : St :=
  match op with
  | .adicionar f => (adicionar f st).2
  | .categoriasPost nome => (categorias_post nome st).2
  | .renomearCategoria cid nome => (renomear_categoria cid nome st).2
  | .excluirCategoria cid => (excluir_categoria cid st).2
  | .editarLancamento eid f => (editar_lancamento eid f st).2
  | .excluirLancamento eid => (excluir_lancamento eid st).2

/-! ## Well-formed storage

Every writer in the app stores stripped cells and non-empty ids, so on
app-written files `load_categories_raw` / `load_expenses_raw` are the
identity.  `wf` captures exactly that. -/

/-- A stored category row as every writer of the app produces it. -/
def Category.wf (c : Category) : Prop :=
  c.id ≠ "" ∧ c.nome ≠ "" ∧ pyStrip c.id = c.id ∧ pyStrip c.nome = c.nome

/-- A stored expense row as every writer of the app produces it. -/
def Expense.wf (e : Expense) : Prop :=
  e.id ≠ "" ∧ pyStrip e.id = e.id ∧ pyStrip e.data = e.data ∧
  pyStrip e.descricao = e.descricao ∧ pyStrip e.valor = e.valor ∧
  pyStrip e.categoria_id = e.categoria_id ∧ pyStrip e.anotacao = e.anotacao

/-- Well-formed storage. -/
def St.wf (st : St) : Prop :=
  (∀ c ∈ st.categories, c.wf) ∧ (∀ e ∈ st.expenses, e.wf)

instance (c : Category) : Decidable c.wf := by unfold Category.wf; infer_instance

instance (e : Expense) : Decidable e.wf := by unfold Expense.wf; infer_instance

instance (st : St) : Decidable st.wf := by unfold St.wf; infer_instance

/-- Distinct ids in both files (the data-model uniqueness invariant). -/
def idsNodup (st : St) : Prop :=
  (st.categories.map Category.id).Nodup ∧ (st.expenses.map Expense.id).Nodup

instance (st : St) : Decidable (idsNodup st) := by unfold idsNodup; infer_instance

/-- Case-insensitive uniqueness of category names. -/
def namesNodup (st : St) : Prop :=
  (st.categories.map (fun c => pyLower c.nome)).Nodup

instance (st : St) : Decidable (namesNodup st) := by unfold namesNodup; infer_instance

/-! ## Concrete states used by the witnesses -/

/-- A small well-formed state with the default category, one extra
category, one expense in it and one orphaned expense. -/
def stW : St :=
  { categories := [{ id := "1", nome := "Outros" }, { id := "2", nome := "Food" }],
    expenses :=
      [{ id := "1", data := "2024-01-01", descricao := "aluguel", valor := "2.00",
         categoria_id := "2", anotacao := "" },
       { id := "2", data := "2024-01-02", descricao := "mercado", valor := "1.50",
         categoria_id := "9", anotacao := "nota" }] }

/-! ## Lemmas about `pyStrip` -/

theorem dropWhile_dropWhile {α : Type} (p : α → Bool) (l : List α) :
    (l.dropWhile p).dropWhile p = l.dropWhile p := by
  induction l with
  | nil => rfl
  | cons a l ih =>
    by_cases h : p a
    · simp [List.dropWhile_cons, h, ih]
    · simp [List.dropWhile_cons, h]

theorem dropWhile_head_false {α : Type} {p : α → Bool} (l : List α) :
    ∀ x xs, l.dropWhile p = x :: xs → p x = false := by
  induction l with
  | nil => intro x xs h; simp at h
  | cons a l ih =>
    intro x xs h
    by_cases ha : p a
    · exact ih x xs (by simpa [List.dropWhile_cons, ha] using h)
    · rw [List.dropWhile_cons, if_neg (by simp [ha])] at h
      cases h
      simpa using ha

theorem dropWhile_eq_self_of_head_false {α : Type} {p : α → Bool} {l : List α}
    (h : ∀ x xs, l = x :: xs → p x = false) : l.dropWhile p = l := by
  cases l with
  | nil => rfl
  | cons a t => rw [List.dropWhile_cons, if_neg (by simp [h a t rfl])]

/-- `str.strip()` is idempotent. -/
theorem pyStrip_idem (s : String) : pyStrip (pyStrip s) = pyStrip s := by
  unfold pyStrip
  set a := s.data.dropWhile isPySpace with ha
  set b := a.reverse.dropWhile isPySpace with hb
  have hmk : (String.mk b.reverse).data = b.reverse := rfl
  rw [hmk]
  have h1 : b.reverse.dropWhile isPySpace = b.reverse := by
    apply dropWhile_eq_self_of_head_false
    intro x xs hx
    -- `b.reverse` is a prefix of `a`; its head is the head of `a`, which
    -- survived the first `dropWhile`.
    have hsuf : b <:+ a.reverse := hb ▸ List.dropWhile_suffix isPySpace
    have hpre : b.reverse <+: a :=
      (@List.reverse_suffix _ b.reverse a).mp (by simpa using hsuf)
    obtain ⟨t, ht⟩ := hpre
    have hax : a = x :: (xs ++ t) := by rw [← ht, hx]; simp
    have haa : a.dropWhile isPySpace = a := dropWhile_dropWhile isPySpace s.data
    rw [hax] at haa
    by_cases hpx : isPySpace x
    · exfalso
      have : (x :: (xs ++ t)).dropWhile isPySpace = (xs ++ t).dropWhile isPySpace := by
        rw [List.dropWhile_cons, if_pos (by simp [hpx])]
      rw [this] at haa
      have := congrArg List.length haa
      have hle := ((@List.dropWhile_suffix _ (xs ++ t) isPySpace).sublist).length_le
      simp at this hle
      omega
    · simpa using hpx
  rw [h1]
  have h2 : b.reverse.reverse.dropWhile isPySpace = b := by
    rw [List.reverse_reverse]
    exact dropWhile_dropWhile isPySpace a.reverse
  rw [h2]

/-- Absence of strip-able whitespace. -/
def noWS (s : String) : Prop := ∀ c ∈ s.data, isPySpace c = false

theorem pyStrip_eq_self_of_noWS {s : String} (h : noWS s) : pyStrip s = s := by
  unfold pyStrip
  have h1 : s.data.dropWhile isPySpace = s.data := by
    apply dropWhile_eq_self_of_head_false
    intro x xs hx
    exact h x (by rw [hx]; exact List.mem_cons_self x xs)
  rw [h1]
  have h2 : s.data.reverse.dropWhile isPySpace = s.data.reverse := by
    apply dropWhile_eq_self_of_head_false
    intro x xs hx
    refine h x ?_
    have : x ∈ s.data.reverse := by rw [hx]; exact List.mem_cons_self x xs
    simpa using this
  rw [h2]
  apply String.ext
  simp

/-! ## Lemmas about decimal representations -/

theorem digitChar10_isDigit {d : Nat} (h : d < 10) : (digitChar10 d).isDigit = true := by
  interval_cases d <;> decide

theorem digitChar10_not_space {d : Nat} (h : d < 10) : isPySpace (digitChar10 d) = false := by
  interval_cases d <;> decide

theorem digitChar10_toNat {d : Nat} (h : d < 10) : (digitChar10 d).toNat - 48 = d := by
  interval_cases d <;> decide

theorem digitsVal_map_digitChar10 (L : List Nat) (h : ∀ d ∈ L, d < 10) :
    digitsVal (L.map digitChar10) = L.foldl (fun a d => 10 * a + d) 0 := by
  unfold digitsVal
  suffices hgen : ∀ (a : Nat) (L : List Nat), (∀ d ∈ L, d < 10) →
      (L.map digitChar10).foldl (fun n c => 10 * n + (c.toNat - 48)) a =
      L.foldl (fun n d => 10 * n + d) a by
    exact hgen 0 L h
  intro a L
  induction L generalizing a with
  | nil => intro _; rfl
  | cons d L ih =>
    intro hb
    simp only [List.map_cons, List.foldl_cons]
    rw [digitChar10_toNat (hb d (List.mem_cons_self d L))]
    exact ih _ (fun x hx => hb x (List.mem_cons_of_mem d hx))

theorem foldl_horner_reverse (L : List Nat) :
    L.reverse.foldl (fun a d => 10 * a + d) 0 = Nat.ofDigits 10 L := by
  induction L with
  | nil => rfl
  | cons d L ih =>
    rw [List.reverse_cons, List.foldl_append, ih, Nat.ofDigits_cons]
    simp only [List.foldl_cons, List.foldl_nil]
    omega

theorem natDigitsAux_eq (fuel : Nat) : ∀ n, n ≤ fuel → natDigitsAux fuel n = Nat.digits 10 n := by
  induction fuel with
  | zero =>
    intro n hn
    have : n = 0 := Nat.le_zero.mp hn
    subst this
    simp [natDigitsAux]
  | succ fuel ih =>
    intro n hn
    by_cases h : n = 0
    · subst h; simp [natDigitsAux]
    · have hdiv : n / 10 ≤ fuel := by
        have : n / 10 < n := Nat.div_lt_self (Nat.pos_of_ne_zero h) (by norm_num)
        omega
      show (if n = 0 then [] else (n % 10) :: natDigitsAux fuel (n / 10)) = _
      rw [if_neg h, ih (n / 10) hdiv,
        Nat.digits_def' (by norm_num : 1 < 10) (Nat.pos_of_ne_zero h)]

theorem natDigits_eq (n : Nat) : natDigits n = Nat.digits 10 n :=
  natDigitsAux_eq n n (le_refl n)

theorem digitsVal_pyStr (n : Nat) : digitsVal (pyStr n).data = n := by
  by_cases h : n = 0
  · subst h; decide
  · show digitsVal (if n = 0 then ['0'] else ((natDigits n).reverse.map digitChar10)) = n
    rw [if_neg h, natDigits_eq]
    rw [digitsVal_map_digitChar10 _ (fun d hd => Nat.digits_lt_base (by norm_num)
      (List.mem_reverse.mp hd))]
    rw [foldl_horner_reverse, Nat.ofDigits_digits]

theorem pyStr_data_ne_nil (n : Nat) : (pyStr n).data ≠ [] := by
  show (if n = 0 then ['0'] else ((natDigits n).reverse.map digitChar10)) ≠ []
  by_cases h : n = 0
  · simp [h]
  · rw [if_neg h, natDigits_eq]
    simp [Nat.digits_ne_nil_iff_ne_zero.mpr h]

theorem pyStr_all_digits (n : Nat) : ∀ c ∈ (pyStr n).data, c.isDigit = true := by
  intro c hc
  have hc2 : c ∈ (if n = 0 then ['0'] else ((natDigits n).reverse.map digitChar10)) := hc
  by_cases h : n = 0
  · rw [if_pos h] at hc2; simp at hc2; subst hc2; decide
  · rw [if_neg h, natDigits_eq] at hc2
    obtain ⟨d, hd, rfl⟩ := List.mem_map.mp hc2
    exact digitChar10_isDigit (Nat.digits_lt_base (by norm_num) (List.mem_reverse.mp hd))

theorem isDigit_not_space {c : Char} (h : c.isDigit = true) : isPySpace c = false := by
  unfold isPySpace Char.isWhitespace
  by_contra hws
  simp only [Bool.not_eq_false, Bool.or_eq_true, decide_eq_true_eq] at hws
  rcases hws with ((h1 | h1) | h1) | h1 <;> subst h1 <;> exact absurd h (by decide)

theorem noWS_pyStr (n : Nat) : noWS (pyStr n) :=
  fun c hc => isDigit_not_space (pyStr_all_digits n c hc)

theorem pyInt?_of_digits (s : String) (h1 : s.data ≠ [])
    (h2 : ∀ c ∈ s.data, c.isDigit = true) :
    pyInt? s = some (digitsVal s.data : Int) := by
  unfold pyInt?
  cases hd : s.data with
  | nil => exact absurd hd h1
  | cons c cs =>
    have hc : c.isDigit = true := h2 c (by rw [hd]; exact List.mem_cons_self c cs)
    have hcm : c ≠ '-' := by intro h; rw [h] at hc; exact absurd hc (by decide)
    have hcp : c ≠ '+' := by intro h; rw [h] at hc; exact absurd hc (by decide)
    have hall : (c :: cs).all Char.isDigit = true := by
      rw [List.all_eq_true]
      intro x hx
      exact h2 x (by rw [hd]; exact hx)
    simp only [pyIntAux, if_neg hcm, if_neg hcp, if_pos hall]

theorem pyInt?_pyStr (n : Nat) : pyInt? (pyStr n) = some (n : Int) := by
  rw [pyInt?_of_digits _ (pyStr_data_ne_nil n) (pyStr_all_digits n), digitsVal_pyStr]

theorem pyInt?_pyStrI (i : Int) : pyInt? (pyStrI i) = some i := by
  unfold pyStrI
  by_cases h : i < 0
  · rw [if_pos h]
    have hdata : ("-" ++ pyStr i.natAbs).data = '-' :: (pyStr i.natAbs).data := by
      rw [String.data_append]; rfl
    unfold pyInt?
    rw [hdata]
    have hcond : (pyStr i.natAbs).data ≠ [] ∧ (pyStr i.natAbs).data.all Char.isDigit = true :=
      ⟨pyStr_data_ne_nil i.natAbs, by rw [List.all_eq_true]; exact pyStr_all_digits i.natAbs⟩
    simp only [pyIntAux, if_pos rfl, if_pos hcond]
    rw [digitsVal_pyStr]
    have hni : -(i.natAbs : Int) = i := by omega
    rw [hni]
    simp
  · rw [if_neg h, pyInt?_pyStr]
    have hni : ((i.toNat : Int)) = i := by omega
    rw [hni]

theorem pyStr_injective : Function.Injective pyStr := by
  intro a b hab
  have h1 := pyInt?_pyStr a
  rw [hab, pyInt?_pyStr] at h1
  have h2 : (a : Int) = b := Option.some.inj h1.symm
  exact_mod_cast h2

theorem pyStrI_ne_empty (i : Int) : pyStrI i ≠ "" := by
  intro h
  have : (pyStrI i).data = [] := by rw [h]
  unfold pyStrI at this
  by_cases hi : i < 0
  · rw [if_pos hi, String.data_append] at this
    simp at this
  · rw [if_neg hi] at this
    exact pyStr_data_ne_nil i.toNat this

theorem noWS_append {s t : String} (hs : noWS s) (ht : noWS t) : noWS (s ++ t) := by
  intro c hc
  rw [String.data_append] at hc
  rcases List.mem_append.mp hc with h | h
  · exact hs c h
  · exact ht c h

theorem noWS_pyStrI (i : Int) : noWS (pyStrI i) := by
  unfold pyStrI
  by_cases h : i < 0
  · rw [if_pos h]
    exact noWS_append (by intro c hc; simp at hc; subst hc; decide) (noWS_pyStr i.natAbs)
  · rw [if_neg h]; exact noWS_pyStr i.toNat

theorem noWS_padZeros {w : Nat} {s : String} (h : noWS s) : noWS (padZeros w s) := by
  apply noWS_append _ h
  intro c hc
  have : c ∈ List.replicate (w - s.length) '0' := hc
  rw [List.eq_of_mem_replicate this]
  decide

theorem noWS_pyStrftimeYmd (ymd : Nat × Nat × Nat) : noWS (pyStrftimeYmd ymd) := by
  unfold pyStrftimeYmd
  have hdash : noWS "-" := by intro c hc; simp at hc; subst hc; decide
  exact noWS_append (noWS_append (noWS_append (noWS_append
    (noWS_padZeros (noWS_pyStr _)) hdash) (noWS_padZeros (noWS_pyStr _))) hdash)
    (noWS_padZeros (noWS_pyStr _))

theorem noWS_formatFixed2 (q : Rat) : noWS (formatFixed2 q) := by
  unfold formatFixed2
  have hdot : noWS "." := by intro c hc; simp at hc; subst hc; decide
  have hzero : noWS "0" := by intro c hc; simp at hc; subst hc; decide
  have hempty : noWS "" := by intro c hc; simp [String.data] at hc
  have hsign : noWS (if roundHalfEven (q * 100) < 0 then "-" else "") := by
    split
    · intro c hc; simp at hc; subst hc; decide
    · exact hempty
  have hpad : noWS (if (roundHalfEven (q * 100)).natAbs % 100 < 10 then "0" else "") := by
    split
    · exact hzero
    · exact hempty
  exact noWS_append (noWS_append (noWS_append (noWS_append hsign (noWS_pyStr _)) hdot) hpad)
    (noWS_pyStr _)

theorem pyStrip_noWS_fix {s : String} (h : noWS s) : pyStrip s = s :=
  pyStrip_eq_self_of_noWS h

theorem noWS_formatPyFloat2 (v : PyFloat) : noWS (formatPyFloat2 v) := by
  cases v with
  | finite q => exact noWS_formatFixed2 q
  | inf neg =>
    cases neg
    · show noWS "inf"
      unfold noWS
      decide
    · show noWS "-inf"
      unfold noWS
      decide
  | nan =>
    show noWS "nan"
    unfold noWS
    decide

/-! ## Lemmas about `pySorted` -/

theorem insertLe_perm {α : Type} (le : α → α → Bool) (a : α) (l : List α) :
    (insertLe le a l).Perm (a :: l) := by
  induction l with
  | nil => exact List.Perm.refl _
  | cons b bs ih =>
    unfold insertLe
    split
    · exact ((ih.cons b).trans (List.Perm.swap a b bs)).symm.symm
    · exact List.Perm.refl _

theorem pySorted_perm {α : Type} (le : α → α → Bool) (l : List α) :
    (pySorted le l).Perm l := by
  unfold pySorted
  suffices hgen : ∀ (acc : List α), (l.foldl (fun acc x => insertLe le x acc) acc).Perm (acc ++ l) by
    simpa using hgen []
  induction l with
  | nil => intro acc; simp
  | cons x l ih =>
    intro acc
    rw [List.foldl_cons]
    refine (ih (insertLe le x acc)).trans ?_
    refine (List.Perm.append_right l (insertLe_perm le x acc)).trans ?_
    have : (x :: acc) ++ l = x :: (acc ++ l) := rfl
    rw [this]
    exact List.perm_middle.symm

theorem mem_pySorted {α : Type} (le : α → α → Bool) {a : α} {l : List α} :
    a ∈ pySorted le l ↔ a ∈ l :=
  (pySorted_perm le l).mem_iff

/-! ## Bounds for `get_next_id` and `nextCatId?` -/

theorem foldl_maxstep_ge_init (ids : List String) (init : Int) :
    init ≤ ids.foldl (fun m s =>
      match pyInt? s with
      | some v => if v > m then v else m
      | none => m) init := by
  induction ids generalizing init with
  | nil => exact le_refl _
  | cons s ids ih =>
    rw [List.foldl_cons]
    refine le_trans ?_ (ih _)
    cases pyInt? s with
    | none => exact le_refl _
    | some v =>
      simp only []
      split <;> omega

theorem foldl_maxstep_ge_mem {ids : List String} {s : String} {v : Int} (hs : s ∈ ids)
    (hv : pyInt? s = some v) (init : Int) :
    v ≤ ids.foldl (fun m s =>
      match pyInt? s with
      | some v => if v > m then v else m
      | none => m) init := by
  induction ids generalizing init with
  | nil => simp at hs
  | cons t ids ih =>
    rw [List.foldl_cons]
    rcases List.mem_cons.mp hs with rfl | hmem
    · refine le_trans ?_ (foldl_maxstep_ge_init ids _)
      rw [hv]
      simp only []
      split <;> omega
    · exact ih hmem _

theorem foldl_max_ge_init (init : Int) (vs : List Int) : init ≤ vs.foldl max init := by
  induction vs generalizing init with
  | nil => exact le_refl _
  | cons u us ih =>
    rw [List.foldl_cons]
    exact le_trans (le_max_left init u) (ih _)

theorem foldl_max_ge_mem {v : Int} {vs : List Int} (h : v ∈ vs) (init : Int) :
    v ≤ vs.foldl max init := by
  induction vs generalizing init with
  | nil => simp at h
  | cons u us ih =>
    rw [List.foldl_cons]
    rcases List.mem_cons.mp h with rfl | hm
    · exact le_trans (le_max_right init v) (foldl_max_ge_init _ us)
    · exact ih hm _

theorem maxListD_ge_mem {vs : List Int} {v : Int} (h : v ∈ vs) : v ≤ maxListD vs := by
  cases vs with
  | nil => simp at h
  | cons w ws =>
    show v ≤ ws.foldl max w
    rcases List.mem_cons.mp h with rfl | hm
    · exact foldl_max_ge_init v ws
    · exact foldl_max_ge_mem hm w

theorem parseIds_mem {cats : List Category} {vs : List Int} (h : parseIds cats = some vs)
    {c : Category} (hc : c ∈ cats) : ∃ v ∈ vs, pyInt? c.id = some v := by
  induction cats generalizing vs with
  | nil => simp at hc
  | cons d cats ih =>
    unfold parseIds at h
    cases hd : pyInt? d.id with
    | none => rw [hd] at h; simp at h
    | some v =>
      rw [hd] at h
      cases hrest : parseIds cats with
      | none => rw [hrest] at h; simp at h
      | some ws =>
        rw [hrest] at h
        simp only [Option.some.injEq] at h
        subst h
        rcases List.mem_cons.mp hc with rfl | hmem
        · exact ⟨v, List.mem_cons_self v ws, hd⟩
        · obtain ⟨w, hw, hpw⟩ := ih hrest hmem
          exact ⟨w, List.mem_cons_of_mem v hw, hpw⟩

/-! ## Loading is the identity on well-formed storage -/

theorem load_categories_raw_eq {st : St} (h : ∀ c ∈ st.categories, c.wf) :
    load_categories_raw st = st.categories := by
  unfold load_categories_raw
  have hf : st.categories.filter (fun c => decide (c.id ≠ "" ∧ c.nome ≠ "")) = st.categories := by
    rw [List.filter_eq_self]
    intro c hc
    obtain ⟨h1, h2, _, _⟩ := h c hc
    simp [h1, h2]
  rw [hf]
  have : ∀ c ∈ st.categories,
      (fun c => Category.mk (pyStrip c.id) (pyStrip c.nome)) c = id c := by
    intro c hc
    obtain ⟨_, _, h3, h4⟩ := h c hc
    simp only [id]
    cases c
    simp only [Category.mk.injEq]
    exact ⟨h3, h4⟩
  rw [List.map_congr_left this, List.map_id]

theorem load_expenses_raw_eq {st : St} (h : ∀ e ∈ st.expenses, e.wf) :
    load_expenses_raw st = st.expenses := by
  unfold load_expenses_raw
  have hmap : st.expenses.map (fun e =>
      Expense.mk (pyStrip e.id) (pyStrip e.data) (pyStrip e.descricao) (pyStrip e.valor)
        (pyStrip e.categoria_id) (pyStrip e.anotacao)) = st.expenses := by
    have : ∀ e ∈ st.expenses, (fun e =>
        Expense.mk (pyStrip e.id) (pyStrip e.data) (pyStrip e.descricao) (pyStrip e.valor)
          (pyStrip e.categoria_id) (pyStrip e.anotacao)) e = id e := by
      intro e he
      obtain ⟨_, h1, h2, h3, h4, h5, h6⟩ := h e he
      simp only [id]
      cases e
      simp only [Expense.mk.injEq]
      exact ⟨h1, h2, h3, h4, h5, h6⟩
    rw [List.map_congr_left this, List.map_id]
  rw [hmap]
  rw [List.filter_eq_self]
  intro e he
  obtain ⟨h1, _⟩ := h e he
  simp [h1]

/-! ## Structure-preserving list updates -/

theorem renameFirst_map_id (cid novo : String) (l : List Category) :
    (renameFirst cid novo l).map Category.id = l.map Category.id := by
  induction l with
  | nil => rfl
  | cons c cs ih =>
    unfold renameFirst
    split
    · simp
    · simp [ih]

theorem mem_renameFirst {cid novo : String} {l : List Category} {d : Category}
    (hd : d ∈ renameFirst cid novo l) :
    d ∈ l ∨ ∃ c ∈ l, c.id = cid ∧ d = { c with nome := novo } := by
  induction l with
  | nil => simp [renameFirst] at hd
  | cons c cs ih =>
    unfold renameFirst at hd
    by_cases hc : c.id = cid
    · rw [if_pos hc] at hd
      rcases List.mem_cons.mp hd with rfl | hmem
      · exact Or.inr ⟨c, List.mem_cons_self c cs, hc, rfl⟩
      · exact Or.inl (List.mem_cons_of_mem c hmem)
    · rw [if_neg hc] at hd
      rcases List.mem_cons.mp hd with rfl | hmem
      · exact Or.inl (List.mem_cons_self d cs)
      · rcases ih hmem with h | ⟨e, he, h1, h2⟩
        · exact Or.inl (List.mem_cons_of_mem c h)
        · exact Or.inr ⟨e, List.mem_cons_of_mem c he, h1, h2⟩

theorem updateFirst_map_id (eid : String) (f : Expense → Expense)
    (hf : ∀ e, (f e).id = e.id) (l : List Expense) :
    (updateFirst eid f l).map Expense.id = l.map Expense.id := by
  induction l with
  | nil => rfl
  | cons e es ih =>
    unfold updateFirst
    split
    · simp [hf]
    · simp [ih]

theorem mem_updateFirst {eid : String} {f : Expense → Expense} {l : List Expense} {d : Expense}
    (hd : d ∈ updateFirst eid f l) :
    d ∈ l ∨ ∃ e ∈ l, d = f e := by
  induction l with
  | nil => simp [updateFirst] at hd
  | cons e es ih =>
    unfold updateFirst at hd
    by_cases he : e.id = eid
    · rw [if_pos he] at hd
      rcases List.mem_cons.mp hd with rfl | hmem
      · exact Or.inr ⟨e, List.mem_cons_self e es, rfl⟩
      · exact Or.inl (List.mem_cons_of_mem e hmem)
    · rw [if_neg he] at hd
      rcases List.mem_cons.mp hd with rfl | hmem
      · exact Or.inl (List.mem_cons_self d es)
      · rcases ih hmem with h | ⟨x, hx, h2⟩
        · exact Or.inl (List.mem_cons_of_mem e h)
        · exact Or.inr ⟨x, List.mem_cons_of_mem e hx, h2⟩

/-! ## `dedupKeepFirst` -/

theorem mem_dedupKeepFirst {x : String} : ∀ {seen l : List String},
    (x ∈ dedupKeepFirst seen l ↔ x ∈ l ∧ x ∉ seen) := by
  intro seen l
  induction l generalizing seen with
  | nil => simp [dedupKeepFirst]
  | cons y ys ih =>
    unfold dedupKeepFirst
    by_cases hy : y ∈ seen
    · rw [if_pos hy, ih]
      constructor
      · rintro ⟨h1, h2⟩
        exact ⟨List.mem_cons_of_mem y h1, h2⟩
      · rintro ⟨h1, h2⟩
        rcases List.mem_cons.mp h1 with rfl | h1
        · exact absurd hy h2
        · exact ⟨h1, h2⟩
    · rw [if_neg hy]
      constructor
      · intro h
        rcases List.mem_cons.mp h with rfl | h
        · exact ⟨List.mem_cons_self x ys, hy⟩
        · obtain ⟨h1, h2⟩ := ih.mp h
          refine ⟨List.mem_cons_of_mem y h1, ?_⟩
          intro hx
          exact h2 (List.mem_cons_of_mem y hx)
      · rintro ⟨h1, h2⟩
        rcases List.mem_cons.mp h1 with rfl | h1
        · exact List.mem_cons_self x _
        · by_cases hxy : x = y
          · subst hxy; exact List.mem_cons_self x _
          · refine List.mem_cons_of_mem y (ih.mpr ⟨h1, ?_⟩)
            intro hx
            rcases List.mem_cons.mp hx with h | h
            · exact hxy h
            · exact h2 h

theorem nodup_dedupKeepFirst : ∀ (seen l : List String), (dedupKeepFirst seen l).Nodup := by
  intro seen l
  induction l generalizing seen with
  | nil => simp [dedupKeepFirst]
  | cons y ys ih =>
    unfold dedupKeepFirst
    by_cases hy : y ∈ seen
    · rw [if_pos hy]; exact ih seen
    · rw [if_neg hy]
      refine List.nodup_cons.mpr ⟨?_, ih (y :: seen)⟩
      intro hmem
      exact (mem_dedupKeepFirst.mp hmem).2 (List.mem_cons_self y seen)

/-! ## Handler failure paths -/

/-- Any failed validation in `adicionar` flashes an error and returns the
state unchanged. -/
theorem adicionar_fail (f : Form) (st : St)
    (h : pyStrip f.data = "" ∨ pyStrip f.descricao = "" ∨ pyStrip f.valor = "" ∨
         formCategoria f = "" ∨ pyStrptimeYmd (pyStrip f.data) = none ∨
         pyFloat? (replaceCommaDot (pyStrip f.valor)) = none ∨
         resolve_category_id (formCategoria f) st = none) :
    (adicionar f st).1.kind = FlashKind.error ∧ (adicionar f st).2 = st := by
  simp only [adicionar]
  by_cases h1 : pyStrip f.data = "" ∨ pyStrip f.descricao = "" ∨ pyStrip f.valor = "" ∨
      formCategoria f = ""
  · rw [if_pos h1]; exact ⟨rfl, rfl⟩
  · rw [if_neg h1]
    cases hd : pyStrptimeYmd (pyStrip f.data) with
    | none => exact ⟨rfl, rfl⟩
    | some d =>
      cases hv : pyFloat? (replaceCommaDot (pyStrip f.valor)) with
      | none => exact ⟨rfl, rfl⟩
      | some v =>
        cases hr : resolve_category_id (formCategoria f) st with
        | none => exact ⟨rfl, rfl⟩
        | some cid =>
          exfalso
          rcases h with h | h | h | h | h | h | h
          · exact h1 (Or.inl h)
          · exact h1 (Or.inr (Or.inl h))
          · exact h1 (Or.inr (Or.inr (Or.inl h)))
          · exact h1 (Or.inr (Or.inr (Or.inr h)))
          · exact Option.noConfusion (hd.symm.trans h)
          · exact Option.noConfusion (hv.symm.trans h)
          · exact Option.noConfusion (hr.symm.trans h)

/-- Any failed validation in `editar_lancamento` flashes an error and
returns the state unchanged. -/
theorem editar_fail (eid : String) (f : Form) (st : St)
    (h : pyStrip f.data = "" ∨ pyStrip f.descricao = "" ∨ pyStrip f.valor = "" ∨
         formCategoria f = "" ∨ pyStrptimeYmd (pyStrip f.data) = none ∨
         pyFloat? (replaceCommaDot (pyStrip f.valor)) = none ∨
         resolve_category_id (formCategoria f) st = none) :
    (editar_lancamento eid f st).1.kind = FlashKind.error ∧ (editar_lancamento eid f st).2 = st := by
  simp only [editar_lancamento]
  by_cases h1 : pyStrip f.data = "" ∨ pyStrip f.descricao = "" ∨ pyStrip f.valor = "" ∨
      formCategoria f = ""
  · rw [if_pos h1]; exact ⟨rfl, rfl⟩
  · rw [if_neg h1]
    cases hd : pyStrptimeYmd (pyStrip f.data) with
    | none => exact ⟨rfl, rfl⟩
    | some d =>
      cases hv : pyFloat? (replaceCommaDot (pyStrip f.valor)) with
      | none => exact ⟨rfl, rfl⟩
      | some v =>
        cases hr : resolve_category_id (formCategoria f) st with
        | none => exact ⟨rfl, rfl⟩
        | some cid =>
          exfalso
          rcases h with h | h | h | h | h | h | h
          · exact h1 (Or.inl h)
          · exact h1 (Or.inr (Or.inl h))
          · exact h1 (Or.inr (Or.inr (Or.inl h)))
          · exact h1 (Or.inr (Or.inr (Or.inr h)))
          · exact Option.noConfusion (hd.symm.trans h)
          · exact Option.noConfusion (hv.symm.trans h)
          · exact Option.noConfusion (hr.symm.trans h)

/-- If no stored category matches by id or case-insensitive name, the
identifier does not resolve. -/
theorem resolve_none_of_no_match {ident : String} {st : St}
    (h : ∀ c ∈ load_categories_raw st,
      pyStrip ident ≠ c.id ∧ pyLower (pyStrip ident) ≠ pyLower c.nome) :
    resolve_category_id ident st = none := by
  simp only [resolve_category_id]
  by_cases hi : pyStrip ident = ""
  · rw [if_pos hi]
  · rw [if_neg hi]
    have hfind : (read_categories st).find?
        (fun c => pyStrip ident = c.id || pyLower (pyStrip ident) = pyLower c.nome) = none := by
      rw [List.find?_eq_none]
      intro c hc
      obtain ⟨h1, h2⟩ := h c ((mem_pySorted _).mp hc)
      simp [h1, h2]
    rw [hfind]
    rfl

/-- On well-formed storage, `reassign_expenses_category` maps exactly the
matching expenses to the new id and leaves the categories alone. -/
theorem reassign_eq_map {st : St} (hwe : ∀ e ∈ st.expenses, e.wf) (old new : String) :
    (reassign_expenses_category old new st).expenses = st.expenses.map (fun e =>
      if e.categoria_id = old then { e with categoria_id := new } else e) ∧
    (reassign_expenses_category old new st).categories = st.categories := by
  simp only [reassign_expenses_category]
  rw [load_expenses_raw_eq hwe]
  by_cases hany : st.expenses.any (fun e => decide (e.categoria_id = old)) = true
  · rw [if_pos hany]; exact ⟨rfl, rfl⟩
  · rw [if_neg hany]
    refine ⟨?_, rfl⟩
    have hnone : ∀ e ∈ st.expenses, e.categoria_id ≠ old := by
      intro e he heq
      exact hany (List.any_eq_true.mpr ⟨e, he, by simp [heq]⟩)
    have : ∀ e ∈ st.expenses, (fun e =>
        if e.categoria_id = old then { e with categoria_id := new } else e) e = id e := by
      intro e he
      simp only [id]
      rw [if_neg (hnone e he)]
    rw [List.map_congr_left this, List.map_id]

/-- Dropping the unique row with a given id shrinks the list by one. -/
theorem length_filter_ne_of_nodup (l : List Category) (cid : String)
    (hnd : (l.map Category.id).Nodup) (hmem : ∃ c ∈ l, c.id = cid) :
    (l.filter (fun d => decide (d.id ≠ cid))).length + 1 = l.length := by
  induction l with
  | nil => simp at hmem
  | cons d ds ih =>
    rw [List.map_cons, List.nodup_cons] at hnd
    by_cases hd : d.id = cid
    · rw [List.filter_cons, if_neg (by simp [hd])]
      have hrest : ds.filter (fun e => decide (e.id ≠ cid)) = ds := by
        rw [List.filter_eq_self]
        intro e he
        have : e.id ≠ cid := by
          intro heq
          exact hnd.1 (hd ▸ heq ▸ List.mem_map_of_mem Category.id he)
        simp [this]
      rw [hrest]
      simp
    · rw [List.filter_cons, if_pos (by simp [hd])]
      obtain ⟨c, hc, hcid⟩ := hmem
      rcases List.mem_cons.mp hc with rfl | hc2
      · exact absurd hcid hd
      · have := ih hnd.2 ⟨c, hc2, hcid⟩
        simp only [List.length_cons]
        omega

/-! ## Claim theorems -/

/-- C8: the default category with id `"1"` is never deletable: for every
state, `delete_category "1"` returns `False` and leaves both the stored
categories and the stored expenses unchanged. -/
theorem default_category_never_deletable (st : St) :
    delete_category "1" st = (false, st) := rfl

/-- C10: submitting a category name that collides case-insensitively with
an existing category to `POST /categorias` is a silent no-op: the
categories file is unchanged, yet the route flashes the success message
`"Categoria criada!"`. -/
theorem duplicate_category_flashes_success (nome : String) (st : St)
    (h1 : pyStrip nome ≠ "")
    (h2 : ∃ c ∈ load_categories_raw st, pyLower c.nome = pyLower (pyStrip nome)) :
    categorias_post nome st = (⟨"Categoria criada!", FlashKind.success⟩, st) := by
  simp only [categorias_post]
  rw [if_neg h1]
  have hadd : add_category nome st = st := by
    simp only [add_category]
    rw [if_neg h1]
    obtain ⟨c, hc, hcl⟩ := h2
    rw [if_pos]
    rw [List.any_eq_true]
    exact ⟨c, (mem_pySorted _).mpr hc, by simp [hcl]⟩
  rw [hadd]

/-- Closed instance of C10: adding `" FOOD "` to a store that already has
`"Food"` leaves the store unchanged but still reports success. -/
theorem duplicate_category_flashes_success_witness :
    categorias_post " FOOD " stW = (⟨"Categoria criada!", FlashKind.success⟩, stW) :=
  duplicate_category_flashes_success " FOOD " stW (by decide) (by decide)

/-- C1: for every category `c` with id different from `"1"` present in the
stored category list (well-formed storage, ids unique per the data model),
`delete_category c.id` succeeds, afterwards every expense that pointed at
`c.id` points at `"1"` (all others untouched), the stored category list has
shrunk by exactly one entry, the entry with id `c.id` is gone and all other
categories are unchanged. -/
theorem delete_category_reassigns_and_shrinks (st : St) (c : Category)
    (hwf : St.wf st) (hmem : c ∈ st.categories) (hne : c.id ≠ "1")
    (hnd : (st.categories.map Category.id).Nodup) :
    (delete_category c.id st).1 = true ∧
    ((delete_category c.id st).2).categories.length + 1 = st.categories.length ∧
    (∀ d ∈ ((delete_category c.id st).2).categories, d.id ≠ c.id) ∧
    (∀ d ∈ st.categories, d.id ≠ c.id → d ∈ ((delete_category c.id st).2).categories) ∧
    (∀ d ∈ ((delete_category c.id st).2).categories, d ∈ st.categories) ∧
    ((delete_category c.id st).2).expenses = st.expenses.map (fun e =>
      if e.categoria_id = c.id then { e with categoria_id := "1" } else e) := by
  obtain ⟨hwc, hwe⟩ := hwf
  have hload := load_categories_raw_eq hwc
  have hlen : (st.categories.filter (fun d => decide (d.id ≠ c.id))).length + 1 =
      st.categories.length :=
    length_filter_ne_of_nodup st.categories c.id hnd ⟨c, hmem, rfl⟩
  have hcond : ¬ ((load_categories_raw st).filter (fun d => decide (d.id ≠ c.id))).length =
      (load_categories_raw st).length := by
    rw [hload]
    omega
  have hdel : delete_category c.id st =
      (true, reassign_expenses_category c.id "1"
        { st with categories := (load_categories_raw st).filter (fun d => decide (d.id ≠ c.id)) }) := by
    simp only [delete_category]
    rw [if_neg hne, if_neg hcond]
  set st1 : St :=
    { st with categories := (load_categories_raw st).filter (fun d => decide (d.id ≠ c.id)) }
    with hst1
  have hre := @reassign_eq_map st1 (by simpa [hst1] using hwe) c.id "1"
  refine ⟨by rw [hdel], ?_, ?_, ?_, ?_, ?_⟩
  · rw [hdel]
    show (reassign_expenses_category c.id "1" st1).categories.length + 1 = _
    rw [hre.2, hst1]
    simpa [hload] using hlen
  · intro d hd
    rw [hdel] at hd
    have hd2 : d ∈ st1.categories := by
      have := hre.2
      simpa [this] using hd
    rw [hst1, hload] at hd2
    have := List.mem_filter.mp hd2
    simpa using this.2
  · intro d hd hdne
    rw [hdel]
    show d ∈ (reassign_expenses_category c.id "1" st1).categories
    rw [hre.2, hst1, hload]
    exact List.mem_filter.mpr ⟨hd, by simpa using hdne⟩
  · intro d hd
    rw [hdel] at hd
    have hd2 : d ∈ st1.categories := by
      have := hre.2
      simpa [this] using hd
    rw [hst1, hload] at hd2
    exact (List.mem_filter.mp hd2).1
  · rw [hdel]
    show (reassign_expenses_category c.id "1" st1).expenses = _
    rw [hre.1]

/-- Closed instance of C1: deleting category `"2"` from `stW` succeeds,
shrinks the list by one and reassigns the expense that used it. -/
theorem delete_category_reassigns_and_shrinks_witness :
    (delete_category "2" stW).1 = true ∧
    ((delete_category "2" stW).2).categories.length + 1 = stW.categories.length ∧
    ((delete_category "2" stW).2).expenses = stW.expenses.map (fun e =>
      if e.categoria_id = "2" then { e with categoria_id := "1" } else e) :=
  have h := delete_category_reassigns_and_shrinks stW ⟨"2", "Food"⟩ (by decide) (by decide)
    (by decide) (by decide)
  ⟨h.1, h.2.1, h.2.2.2.2.2⟩

/-- C9: an expense whose `categoria_id` matches no stored category id is
displayed by `read_expenses` with the category name `"Categoria removida"`
and its `categoria_id` is carried through unchanged (reading never
rewrites the stored rows: `read_expenses` is a pure function of the
state). -/
theorem orphan_expense_displayed (st : St) (e : Expense) (hwf : St.wf st)
    (he : e ∈ st.expenses)
    (horph : ∀ c ∈ st.categories, c.id ≠ e.categoria_id) :
    ∃ v ∈ read_expenses st, v.id = e.id ∧ v.categoria_id = e.categoria_id ∧
      v.categoria_nome = "Categoria removida" ∧ v.data = e.data ∧
      v.descricao = e.descricao ∧ v.anotacao = e.anotacao := by
  obtain ⟨hwc, hwe⟩ := hwf
  have hdict : dictGet ((read_categories st).map (fun c => (c.id, c.nome)))
      e.categoria_id = none := by
    unfold dictGet
    have hfind : (((read_categories st).map (fun c => (c.id, c.nome))).reverse.find?
        (fun p => decide (p.1 = e.categoria_id))) = none := by
      rw [List.find?_eq_none]
      intro p hp
      rw [List.mem_reverse] at hp
      obtain ⟨c, hc, rfl⟩ := List.mem_map.mp hp
      have hc2 : c ∈ st.categories := by
        rw [← load_categories_raw_eq hwc]
        exact (mem_pySorted _).mp hc
      simp [horph c hc2]
    rw [hfind]
    rfl
  refine ⟨
    { id := e.id
      data := e.data
      descricao := e.descricao
      valor := formatPyFloat2
        ((pyFloat? (replaceCommaDot (if e.valor = "" then "0" else e.valor))).getD
          (PyFloat.finite 0))
      valor_float := (pyFloat? (replaceCommaDot (if e.valor = "" then "0" else e.valor))).getD
        (PyFloat.finite 0)
      categoria_id := e.categoria_id
      categoria_nome := "Categoria removida"
      categoria := "Categoria removida"
      anotacao := e.anotacao }, ?_, rfl, rfl, rfl, rfl, rfl, rfl⟩
  simp only [read_expenses]
  rw [load_expenses_raw_eq hwe, mem_pySorted]
  apply List.mem_map.mpr
  refine ⟨e, he, ?_⟩
  simp only [hdict]

/-- Closed instance of C9: the stored expense with `categoria_id = "9"`
(no such category) is displayed as `"Categoria removida"` with its id
untouched. -/
theorem orphan_expense_displayed_witness :
    ∃ v ∈ read_expenses stW, v.id = "2" ∧ v.categoria_id = "9" ∧
      v.categoria_nome = "Categoria removida" ∧ v.data = "2024-01-02" ∧
      v.descricao = "mercado" ∧ v.anotacao = "nota" :=
  orphan_expense_displayed stW
    { id := "2", data := "2024-01-02", descricao := "mercado", valor := "1.50",
      categoria_id := "9", anotacao := "nota" }
    (by decide) (by decide) (by decide)

/-- C6: an expense-creation request whose category input matches no stored
category by id nor by case-insensitive name is rejected:
`resolve_category_id` returns `None`, `adicionar` flashes an error and the
stored state (in particular the expenses file) is unchanged. -/
theorem unknown_category_rejected (f : Form) (st : St)
    (h : ∀ c ∈ load_categories_raw st,
      formCategoria f ≠ c.id ∧ pyLower (formCategoria f) ≠ pyLower c.nome) :
    resolve_category_id (formCategoria f) st = none ∧
    (adicionar f st).1.kind = FlashKind.error ∧ (adicionar f st).2 = st := by
  have hstrip : pyStrip (formCategoria f) = formCategoria f := by
    simp only [formCategoria]
    exact pyStrip_idem _
  have hres : resolve_category_id (formCategoria f) st = none := by
    apply resolve_none_of_no_match
    rw [hstrip]
    exact h
  exact ⟨hres, adicionar_fail f st (Or.inr (Or.inr (Or.inr (Or.inr (Or.inr (Or.inr hres))))))⟩

/-- Closed instance of C6: category input `"viagem"` matches nothing in
`stW`, so the creation is rejected and the state kept. -/
theorem unknown_category_rejected_witness :
    resolve_category_id (formCategoria (Form.mk "2024-01-03" "hotel" "10" "" "viagem" ""))
      stW = none ∧
    (adicionar (Form.mk "2024-01-03" "hotel" "10" "" "viagem" "") stW).1.kind =
      FlashKind.error ∧
    (adicionar (Form.mk "2024-01-03" "hotel" "10" "" "viagem" "") stW).2 = stW :=
  unknown_category_rejected (Form.mk "2024-01-03" "hotel" "10" "" "viagem" "") stW (by decide)

/-- C4: a creation or edit request with a missing required field, a
malformed date, a non-numeric amount or an unresolvable category makes
both handlers flash an error and leave the stored state unchanged. -/
theorem validation_failure_aborts_mutation (f : Form) (eid : String) (st : St)
    (h : pyStrip f.data = "" ∨ pyStrip f.descricao = "" ∨ pyStrip f.valor = "" ∨
         formCategoria f = "" ∨ pyStrptimeYmd (pyStrip f.data) = none ∨
         pyFloat? (replaceCommaDot (pyStrip f.valor)) = none ∨
         resolve_category_id (formCategoria f) st = none) :
    (adicionar f st).1.kind = FlashKind.error ∧ (adicionar f st).2 = st ∧
    (editar_lancamento eid f st).1.kind = FlashKind.error ∧
    (editar_lancamento eid f st).2 = st := by
  obtain ⟨h1, h2⟩ := adicionar_fail f st h
  obtain ⟨h3, h4⟩ := editar_fail eid f st h
  exact ⟨h1, h2, h3, h4⟩

/-- Closed instance of C4: a malformed date (`"2024-13-40"`) aborts both
the creation and the edit of expense `"1"`, leaving `stW` unchanged. -/
theorem validation_failure_aborts_mutation_witness :
    (adicionar (Form.mk "2024-13-40" "x" "1" "" "Food" "") stW).1.kind = FlashKind.error ∧
    (adicionar (Form.mk "2024-13-40" "x" "1" "" "Food" "") stW).2 = stW ∧
    (editar_lancamento "1" (Form.mk "2024-13-40" "x" "1" "" "Food" "") stW).1.kind =
      FlashKind.error ∧
    (editar_lancamento "1" (Form.mk "2024-13-40" "x" "1" "" "Food" "") stW).2 = stW :=
  validation_failure_aborts_mutation (Form.mk "2024-13-40" "x" "1" "" "Food" "") "1" stW
    (by decide)

/-! ## Amount parsing (C7) -/

theorem digit_ne_underscore {c : Char} (hc : c.isDigit = true) : c ≠ '_' := by
  intro h
  rw [h] at hc
  exact absurd hc (by decide)

theorem takeDigitsUAux_digits_append {x : Char} (hx : x.isDigit = false) (hu : x ≠ '_')
    (r : List Char) :
    ∀ (a : List Char) (fuel : Nat), (∀ c ∈ a, c.isDigit = true) → a.length + 1 ≤ fuel →
    takeDigitsUAux fuel (a ++ x :: r) = (a, x :: r) := by
  intro a
  induction a with
  | nil =>
    intro fuel _ hfuel
    cases fuel with
    | zero => omega
    | succ f =>
      show (if x.isDigit then _ else ([], x :: r)) = ([], x :: r)
      rw [if_neg (by simp [hx])]
  | cons c a2 ih =>
    intro fuel ha hfuel
    have hc : c.isDigit = true := ha c (List.mem_cons_self c a2)
    cases fuel with
    | zero => omega
    | succ f =>
      have ha2 : ∀ d ∈ a2, d.isDigit = true := fun d hd => ha d (List.mem_cons_of_mem c hd)
      have hih := ih f ha2 (by simp at hfuel; omega)
      show takeDigitsUAux (f + 1) (c :: (a2 ++ x :: r)) = _
      simp only [takeDigitsUAux, if_pos hc]
      cases a2 with
      | nil =>
        -- the scrutinee is `x :: r` and `x ≠ '_'`
        simp only [List.nil_append]
        split
        · rename_i heq
          cases heq
          exact absurd rfl hu
        · rw [List.nil_append] at hih
          rw [hih]
      | cons d a3 =>
        have hd : d.isDigit = true := ha2 d (List.mem_cons_self d a3)
        split
        · rename_i heq
          rw [List.cons_append] at heq
          cases heq
          exact absurd rfl (digit_ne_underscore hd)
        · rw [hih]

theorem takeDigitsUAux_all_digits :
    ∀ (a : List Char) (fuel : Nat), (∀ c ∈ a, c.isDigit = true) → a.length ≤ fuel →
    takeDigitsUAux fuel a = (a, []) := by
  intro a
  induction a with
  | nil =>
    intro fuel _ _
    cases fuel with
    | zero => rfl
    | succ f => rfl
  | cons c a2 ih =>
    intro fuel ha hfuel
    have hc : c.isDigit = true := ha c (List.mem_cons_self c a2)
    cases fuel with
    | zero => simp at hfuel
    | succ f =>
      have ha2 : ∀ d ∈ a2, d.isDigit = true := fun d hd => ha d (List.mem_cons_of_mem c hd)
      have hih := ih f ha2 (by simp at hfuel; omega)
      simp only [takeDigitsUAux, if_pos hc]
      cases a2 with
      | nil =>
        rw [hih]
      | cons d a3 =>
        have hd : d.isDigit = true := ha2 d (List.mem_cons_self d a3)
        split
        · rename_i heq
          cases heq
          exact absurd rfl (digit_ne_underscore hd)
        · rw [hih]

theorem takeDigitsU_digits_append {a : List Char} (ha : ∀ c ∈ a, c.isDigit = true)
    {x : Char} (hx : x.isDigit = false) (hu : x ≠ '_') (r : List Char) :
    takeDigitsU (a ++ x :: r) = (a, x :: r) := by
  unfold takeDigitsU
  apply takeDigitsUAux_digits_append hx hu r a _ ha
  rw [List.length_append, List.length_cons]
  omega

theorem takeDigitsU_all_digits {a : List Char} (ha : ∀ c ∈ a, c.isDigit = true) :
    takeDigitsU a = (a, []) :=
  takeDigitsUAux_all_digits a a.length ha (le_refl _)

/-- Parsing a pure digit-dot-digit character list yields the expected
mantissa. -/
theorem pyFloatCore_digits_dot {a b : List Char} (hane : a ≠ [])
    (ha : ∀ c ∈ a, c.isDigit = true) (hb : ∀ c ∈ b, c.isDigit = true) :
    pyFloatCore (a ++ '.' :: b) =
      some ((digitsVal a : Rat) + (digitsVal b : Rat) / ((10 : Rat) ^ b.length)) := by
  have h1 : takeDigitsU (a ++ '.' :: b) = (a, '.' :: b) :=
    @takeDigitsU_digits_append a ha '.' (by decide) (by decide) b
  have h2 : takeDigitsU b = (b, []) := takeDigitsU_all_digits hb
  simp only [pyFloatCore, h1, h2]
  rw [if_neg (by simp [hane])]

/-- `pyFloat?` on a digit-dot-digit string. -/
theorem pyFloat?_digits_dot {a b : String} (hane : a.data ≠ [])
    (ha : ∀ c ∈ a.data, c.isDigit = true)
    (hb : ∀ c ∈ b.data, c.isDigit = true) :
    pyFloat? (a ++ "." ++ b) =
      some (PyFloat.finite ((digitsVal a.data : Rat) +
        (digitsVal b.data : Rat) / ((10 : Rat) ^ b.data.length))) := by
  have hdata : (a ++ "." ++ b).data = a.data ++ '.' :: b.data := by
    rw [String.data_append, String.data_append]
    simp
  unfold pyFloat?
  rw [hdata]
  cases hcs : a.data with
  | nil => exact absurd hcs hane
  | cons c cs =>
    have hc : c.isDigit = true := ha c (by rw [hcs]; exact List.mem_cons_self c cs)
    have hcp : c ≠ '+' := by intro h; rw [h] at hc; exact absurd hc (by decide)
    have hcm : c ≠ '-' := by intro h; rw [h] at hc; exact absurd hc (by decide)
    show pyFloatSignAux (c :: (cs ++ '.' :: b.data)) = _
    simp only [pyFloatSignAux, if_neg hcp, if_neg hcm]
    have : c :: (cs ++ '.' :: b.data) = (c :: cs) ++ '.' :: b.data := rfl
    rw [this, ← hcs]
    simp only [pyFloatAbs, pyFloatCore_digits_dot hane ha hb]
    simp

theorem replaceCommaDot_digits_comma {a b : String} (ha : ∀ c ∈ a.data, c.isDigit = true)
    (hb : ∀ c ∈ b.data, c.isDigit = true) :
    replaceCommaDot (a ++ "," ++ b) = a ++ "." ++ b := by
  apply String.ext
  show ((a ++ "," ++ b).data.map (fun c => if c = ',' then '.' else c)) = (a ++ "." ++ b).data
  have h1 : (a ++ "," ++ b).data = a.data ++ ',' :: b.data := by
    rw [String.data_append, String.data_append]; simp
  have h2 : (a ++ "." ++ b).data = a.data ++ '.' :: b.data := by
    rw [String.data_append, String.data_append]; simp
  rw [h1, h2, List.map_append, List.map_cons]
  have hmapa : a.data.map (fun c => if c = ',' then '.' else c) = a.data := by
    have : ∀ c ∈ a.data, (fun c => if c = ',' then '.' else c) c = id c := by
      intro c hc
      have := ha c hc
      simp only [id]
      rw [if_neg (by intro h; rw [h] at this; exact absurd this (by decide))]
    rw [List.map_congr_left this, List.map_id]
  have hmapb : b.data.map (fun c => if c = ',' then '.' else c) = b.data := by
    have : ∀ c ∈ b.data, (fun c => if c = ',' then '.' else c) c = id c := by
      intro c hc
      have := hb c hc
      simp only [id]
      rw [if_neg (by intro h; rw [h] at this; exact absurd this (by decide))]
    rw [List.map_congr_left this, List.map_id]
  rw [hmapa, hmapb]
  rfl

theorem replaceCommaDot_digits_dot {a b : String} (ha : ∀ c ∈ a.data, c.isDigit = true)
    (hb : ∀ c ∈ b.data, c.isDigit = true) :
    replaceCommaDot (a ++ "." ++ b) = a ++ "." ++ b := by
  apply String.ext
  show ((a ++ "." ++ b).data.map (fun c => if c = ',' then '.' else c)) = (a ++ "." ++ b).data
  have h2 : (a ++ "." ++ b).data = a.data ++ '.' :: b.data := by
    rw [String.data_append, String.data_append]; simp
  rw [h2, List.map_append, List.map_cons]
  have hmapa : a.data.map (fun c => if c = ',' then '.' else c) = a.data := by
    have : ∀ c ∈ a.data, (fun c => if c = ',' then '.' else c) c = id c := by
      intro c hc
      have := ha c hc
      simp only [id]
      rw [if_neg (by intro h; rw [h] at this; exact absurd this (by decide))]
    rw [List.map_congr_left this, List.map_id]
  have hmapb : b.data.map (fun c => if c = ',' then '.' else c) = b.data := by
    have : ∀ c ∈ b.data, (fun c => if c = ',' then '.' else c) c = id c := by
      intro c hc
      have := hb c hc
      simp only [id]
      rw [if_neg (by intro h; rw [h] at this; exact absurd this (by decide))]
    rw [List.map_congr_left this, List.map_id]
  rw [hmapa, hmapb]
  rfl

/-- C7: amount parsing accepts comma and dot as decimal separator: for
digit strings `a` (integer part) and `b` (fractional part), parsing
`"a,b"` and `"a.b"` both succeed and give the same numeric value; and a
submitted amount that is numeric under neither reading makes `adicionar`
flash `"Valor inválido."` and leave the state unchanged. -/
theorem amount_comma_dot_equivalent (a b : String) (form : Form) (st : St)
    (hane : a.data ≠ []) (ha : ∀ c ∈ a.data, c.isDigit = true)
    (hbne : b.data ≠ []) (hb : ∀ c ∈ b.data, c.isDigit = true)
    (hfields : ¬ (pyStrip form.data = "" ∨ pyStrip form.descricao = "" ∨
      pyStrip form.valor = "" ∨ formCategoria form = ""))
    (hdate : pyStrptimeYmd (pyStrip form.data) ≠ none)
    (hnum : pyFloat? (replaceCommaDot (pyStrip form.valor)) = none) :
    pyFloat? (replaceCommaDot (a ++ "," ++ b)) =
      pyFloat? (replaceCommaDot (a ++ "." ++ b)) ∧
    (pyFloat? (replaceCommaDot (a ++ "," ++ b))).isSome = true ∧
    adicionar form st = (⟨"Valor inválido.", FlashKind.error⟩, st) := by
  have hcomma := replaceCommaDot_digits_comma ha hb
  have hdot := replaceCommaDot_digits_dot ha hb
  refine ⟨by rw [hcomma, hdot], ?_, ?_⟩
  · rw [hcomma, pyFloat?_digits_dot hane ha hb]
    rfl
  · simp only [adicionar]
    rw [if_neg hfields]
    cases hd : pyStrptimeYmd (pyStrip form.data) with
    | none => exact absurd hd hdate
    | some d => rw [hnum]

/-- Closed instance of C7: `"3,5"` and `"3.5"` parse to the same value,
and the non-numeric amount `"abc"` makes `adicionar` flash
`"Valor inválido."` and keep `stW`. -/
theorem amount_comma_dot_equivalent_witness :
    pyFloat? (replaceCommaDot ("3" ++ "," ++ "5")) =
      pyFloat? (replaceCommaDot ("3" ++ "." ++ "5")) ∧
    (pyFloat? (replaceCommaDot ("3" ++ "," ++ "5"))).isSome = true ∧
    adicionar (Form.mk "2024-01-05" "x" "abc" "" "Food" "") stW =
      (⟨"Valor inválido.", FlashKind.error⟩, stW) :=
  amount_comma_dot_equivalent "3" "5" (Form.mk "2024-01-05" "x" "abc" "" "Food" "") stW
    (by decide) (by decide) (by decide) (by decide) (by decide) (by decide) (by decide)

/-! ## Case analyses of the mutating operations -/

theorem resolve_some_mem {ident cid : String} {st : St}
    (h : resolve_category_id ident st = some cid) :
    ∃ c ∈ load_categories_raw st, c.id = cid := by
  simp only [resolve_category_id] at h
  by_cases hi : pyStrip ident = ""
  · rw [if_pos hi] at h; cases h
  · rw [if_neg hi] at h
    cases hf : (read_categories st).find?
        (fun c => pyStrip ident = c.id || pyLower (pyStrip ident) = pyLower c.nome) with
    | none => rw [hf] at h; cases h
    | some c =>
      rw [hf] at h
      refine ⟨c, (mem_pySorted _).mp (List.mem_of_find?_eq_some hf), ?_⟩
      simpa using h

theorem nextCatId?_some {cats : List Category} {nid : String} (h : nextCatId? cats = some nid) :
    ∃ vs, parseIds cats = some vs ∧ nid = pyStrI (maxListD vs + 1) := by
  simp only [nextCatId?] at h
  cases hp : parseIds cats with
  | none => rw [hp] at h; cases h
  | some vs =>
    rw [hp] at h
    exact ⟨vs, rfl, by simpa using h.symm⟩

theorem add_category_cases (nome : String) (st : St) :
    add_category nome st = st ∨
    (pyStrip nome ≠ "" ∧ ∃ nid, nextCatId? (read_categories st) = some nid ∧
      (∀ c ∈ read_categories st, ¬ pyLower c.nome = pyLower (pyStrip nome)) ∧
      add_category nome st =
        { st with categories := st.categories ++ [{ id := nid, nome := pyStrip nome }] }) := by
  simp only [add_category]
  by_cases h1 : pyStrip nome = ""
  · rw [if_pos h1]; exact Or.inl rfl
  · rw [if_neg h1]
    by_cases h2 : (read_categories st).any (fun c => decide (pyLower c.nome = pyLower (pyStrip nome)))
    · rw [if_pos h2]; exact Or.inl rfl
    · rw [if_neg h2]
      cases hn : nextCatId? (read_categories st) with
      | none => exact Or.inl rfl
      | some nid =>
        refine Or.inr ⟨h1, nid, rfl, ?_, rfl⟩
        intro c hc hcl
        exact h2 (List.any_eq_true.mpr ⟨c, hc, by simp [hcl]⟩)

theorem update_category_cases (cid novo : String) (st : St) :
    (update_category cid novo st).2 = st ∨
    (pyStrip novo ≠ "" ∧
     (∀ c ∈ load_categories_raw st, ¬ (pyLower (pyStrip novo) = pyLower c.nome ∧ c.id ≠ cid)) ∧
     (update_category cid novo st).2 =
       { st with categories := renameFirst cid (pyStrip novo) (load_categories_raw st) }) := by
  simp only [update_category]
  by_cases h1 : pyStrip novo = ""
  · rw [if_pos h1]; exact Or.inl rfl
  · rw [if_neg h1]
    by_cases h2 : (load_categories_raw st).all (fun c => decide (c.id ≠ cid))
    · rw [if_pos h2]; exact Or.inl rfl
    · rw [if_neg h2]
      by_cases h3 : (load_categories_raw st).any
          (fun c => decide (pyLower (pyStrip novo) = pyLower c.nome) && decide (c.id ≠ cid))
      · rw [if_pos h3]; exact Or.inl rfl
      · rw [if_neg h3]
        refine Or.inr ⟨h1, ?_, rfl⟩
        rintro c hc ⟨hl, hne⟩
        exact h3 (List.any_eq_true.mpr ⟨c, hc, by simp [hl, hne]⟩)

theorem delete_category_cases (cid : String) (st : St) :
    (delete_category cid st).2 = st ∨
    (delete_category cid st).2 = reassign_expenses_category cid "1"
      { st with categories := (load_categories_raw st).filter (fun c => decide (c.id ≠ cid)) } := by
  simp only [delete_category]
  by_cases h1 : cid = "1"
  · rw [if_pos h1]; exact Or.inl rfl
  · rw [if_neg h1]
    by_cases h2 : ((load_categories_raw st).filter (fun c => decide (c.id ≠ cid))).length =
        (load_categories_raw st).length
    · rw [if_pos h2]; exact Or.inl rfl
    · rw [if_neg h2]; exact Or.inr rfl

theorem update_expense_cases (eid data descricao : String) (v : PyFloat) (cid an : String)
    (st : St) :
    (update_expense eid data descricao v cid an st).2 = st ∨
    (update_expense eid data descricao v cid an st).2 =
      { st with expenses := updateFirst eid (fun e =>
        { e with data := data, descricao := descricao, valor := formatPyFloat2 v,
                 categoria_id := cid, anotacao := an }) (load_expenses_raw st) } := by
  simp only [update_expense]
  by_cases h : (load_expenses_raw st).any (fun e => decide (e.id = eid))
  · rw [if_pos h]; exact Or.inr rfl
  · rw [if_neg h]; exact Or.inl rfl

theorem delete_expense_cases (eid : String) (st : St) :
    (delete_expense eid st).2 = st ∨
    (delete_expense eid st).2 =
      { st with expenses := (load_expenses_raw st).filter (fun e => decide (e.id ≠ eid)) } := by
  simp only [delete_expense]
  by_cases h : ((load_expenses_raw st).filter (fun e => decide (e.id ≠ eid))).length =
      (load_expenses_raw st).length
  · rw [if_pos h]; exact Or.inl rfl
  · rw [if_neg h]; exact Or.inr rfl

theorem adicionar_cases (f : Form) (st : St) :
    (adicionar f st).2 = st ∨
    ∃ d cid v, pyStrptimeYmd (pyStrip f.data) = some d ∧
      resolve_category_id (formCategoria f) st = some cid ∧
      pyFloat? (replaceCommaDot (pyStrip f.valor)) = some v ∧
      (adicionar f st).2 =
        write_expense (pyStrftimeYmd d) (pyStrip f.descricao) v cid (pyStrip f.anotacao) st := by
  simp only [adicionar]
  by_cases h1 : pyStrip f.data = "" ∨ pyStrip f.descricao = "" ∨ pyStrip f.valor = "" ∨
      formCategoria f = ""
  · rw [if_pos h1]; exact Or.inl rfl
  · rw [if_neg h1]
    cases hd : pyStrptimeYmd (pyStrip f.data) with
    | none => exact Or.inl rfl
    | some d =>
      cases hv : pyFloat? (replaceCommaDot (pyStrip f.valor)) with
      | none => exact Or.inl rfl
      | some v =>
        cases hr : resolve_category_id (formCategoria f) st with
        | none => exact Or.inl rfl
        | some cid => exact Or.inr ⟨d, cid, v, rfl, rfl, rfl, rfl⟩

theorem editar_cases (eid : String) (f : Form) (st : St) :
    (editar_lancamento eid f st).2 = st ∨
    ∃ d cid v, pyStrptimeYmd (pyStrip f.data) = some d ∧
      resolve_category_id (formCategoria f) st = some cid ∧
      pyFloat? (replaceCommaDot (pyStrip f.valor)) = some v ∧
      (editar_lancamento eid f st).2 =
        (update_expense eid (pyStrftimeYmd d) (pyStrip f.descricao) v cid
          (pyStrip f.anotacao) st).2 := by
  simp only [editar_lancamento]
  by_cases h1 : pyStrip f.data = "" ∨ pyStrip f.descricao = "" ∨ pyStrip f.valor = "" ∨
      formCategoria f = ""
  · rw [if_pos h1]; exact Or.inl rfl
  · rw [if_neg h1]
    cases hd : pyStrptimeYmd (pyStrip f.data) with
    | none => exact Or.inl rfl
    | some d =>
      cases hv : pyFloat? (replaceCommaDot (pyStrip f.valor)) with
      | none => exact Or.inl rfl
      | some v =>
        cases hr : resolve_category_id (formCategoria f) st with
        | none => exact Or.inl rfl
        | some cid =>
          refine Or.inr ⟨d, cid, v, rfl, rfl, rfl, ?_⟩
          simp only []
          by_cases hu : (update_expense eid (pyStrftimeYmd d) (pyStrip f.descricao) v cid
              (pyStrip f.anotacao) st).1 = true
          · rw [if_pos hu]
          · rw [if_neg hu]

/-! ## Freshness and preservation lemmas -/

theorem get_next_id_spec (ids : List String) :
    ∃ N : Int, pyInt? (get_next_id ids) = some N ∧
      ∀ s ∈ ids, ∀ v : Int, pyInt? s = some v → v < N := by
  refine ⟨(ids.foldl (fun m s =>
    match pyInt? s with
    | some v => if v > m then v else m
    | none => m) (0 : Int)) + 1, ?_, ?_⟩
  · exact pyInt?_pyStrI _
  · intro s hs v hv
    have := foldl_maxstep_ge_mem hs hv 0
    omega

theorem get_next_id_wf (ids : List String) :
    get_next_id ids ≠ "" ∧ pyStrip (get_next_id ids) = get_next_id ids := by
  unfold get_next_id
  exact ⟨pyStrI_ne_empty _, pyStrip_noWS_fix (noWS_pyStrI _)⟩

theorem write_expense_preserves (st : St) (data descricao : String) (v : PyFloat)
    (cid an : String)
    (hwf : St.wf st) (hids : idsNodup st)
    (hd : pyStrip data = data) (hde : pyStrip descricao = descricao)
    (hcid : pyStrip cid = cid) (han : pyStrip an = an) :
    St.wf (write_expense data descricao v cid an st) ∧
    idsNodup (write_expense data descricao v cid an st) := by
  obtain ⟨N, hN, hbound⟩ := get_next_id_spec (st.expenses.map Expense.id)
  have hfresh : ∀ e ∈ st.expenses, e.id ≠ get_next_id (st.expenses.map Expense.id) := by
    intro e he heq
    have hv : pyInt? e.id = some N := by rw [heq, hN]
    have := hbound e.id (List.mem_map_of_mem Expense.id he) N hv
    omega
  constructor
  · constructor
    · exact hwf.1
    · intro e he
      simp only [write_expense] at he
      rcases List.mem_append.mp he with h | h
      · exact hwf.2 e h
      · rw [List.mem_singleton] at h
        subst h
        exact ⟨(get_next_id_wf _).1, (get_next_id_wf _).2, hd, hde,
          pyStrip_noWS_fix (noWS_formatPyFloat2 v), hcid, han⟩
  · constructor
    · exact hids.1
    · simp only [write_expense, List.map_append, List.map_cons, List.map_nil]
      refine List.Nodup.append hids.2 (List.nodup_singleton _) ?_
      intro a ha hb
      rw [List.mem_singleton] at hb
      subst hb
      obtain ⟨e, he, heq⟩ := List.mem_map.mp ha
      exact hfresh e he heq

theorem reassign_preserves (st : St) (old new : String)
    (hwf : St.wf st) (hids : idsNodup st) (hnew : pyStrip new = new) :
    St.wf (reassign_expenses_category old new st) ∧
    idsNodup (reassign_expenses_category old new st) := by
  obtain ⟨he, hcats⟩ := reassign_eq_map hwf.2 old new
  constructor
  · constructor
    · rw [hcats]; exact hwf.1
    · rw [he]
      intro e hmem
      obtain ⟨d, hd, rfl⟩ := List.mem_map.mp hmem
      obtain ⟨h1, h2, h3, h4, h5, h6, h7⟩ := hwf.2 d hd
      by_cases hm : d.categoria_id = old
      · rw [if_pos hm]
        exact ⟨h1, h2, h3, h4, h5, hnew, h7⟩
      · rw [if_neg hm]
        exact ⟨h1, h2, h3, h4, h5, h6, h7⟩
  · constructor
    · rw [hcats]; exact hids.1
    · rw [he, List.map_map]
      have : (Expense.id ∘ fun e =>
          if e.categoria_id = old then { e with categoria_id := new } else e) = Expense.id := by
        funext e
        by_cases hm : e.categoria_id = old
        · simp [hm]
        · simp [hm]
      rw [this]
      exact hids.2

theorem renameFirst_wf {l : List Category} (hl : ∀ c ∈ l, c.wf) {cid novo : String}
    (hne : novo ≠ "") (hfix : pyStrip novo = novo) :
    ∀ c ∈ renameFirst cid novo l, c.wf := by
  intro c hc
  rcases mem_renameFirst hc with h | ⟨d, hd, _, rfl⟩
  · exact hl c h
  · obtain ⟨h1, _, h3, _⟩ := hl d hd
    exact ⟨h1, hne, h3, hfix⟩

theorem renameFirst_names_mem {cid novo : String} {l : List Category} {x : String}
    (hx : x ∈ (renameFirst cid novo l).map (fun c => pyLower c.nome)) :
    x = pyLower novo ∨ x ∈ l.map (fun c => pyLower c.nome) := by
  obtain ⟨c, hc, rfl⟩ := List.mem_map.mp hx
  rcases mem_renameFirst hc with h | ⟨d, hd, _, rfl⟩
  · exact Or.inr (List.mem_map_of_mem _ h)
  · exact Or.inl rfl

theorem renameFirst_namesNodup {l : List Category} {cid novo : String}
    (hid : (l.map Category.id).Nodup)
    (hnd : (l.map (fun c => pyLower c.nome)).Nodup)
    (hno : ∀ c ∈ l, c.id ≠ cid → pyLower novo ≠ pyLower c.nome) :
    ((renameFirst cid novo l).map (fun c => pyLower c.nome)).Nodup := by
  induction l with
  | nil => simp [renameFirst]
  | cons c cs ih =>
    rw [List.map_cons, List.nodup_cons] at hnd hid
    by_cases hc : c.id = cid
    · unfold renameFirst
      rw [if_pos hc, List.map_cons, List.nodup_cons]
      constructor
      · intro hmem
        obtain ⟨d, hd, hdl⟩ := List.mem_map.mp hmem
        have hdne : d.id ≠ cid := by
          intro h
          exact hid.1 (hc ▸ h ▸ List.mem_map_of_mem Category.id hd)
        exact hno d (List.mem_cons_of_mem c hd) hdne hdl.symm
      · exact hnd.2
    · unfold renameFirst
      rw [if_neg hc, List.map_cons, List.nodup_cons]
      refine ⟨?_, ih hid.2 hnd.2 (fun d hd hdne => hno d (List.mem_cons_of_mem c hd) hdne)⟩
      intro hmem
      rcases renameFirst_names_mem hmem with h | h
      · exact hno c (List.mem_cons_self c cs) hc h.symm
      · exact hnd.1 h

theorem renomear_snd (cid nome : String) (st : St) :
    (renomear_categoria cid nome st).2 = (update_category cid nome st).2 := by
  simp only [renomear_categoria]
  by_cases h : (update_category cid nome st).1 = true
  · rw [if_pos h]
  · rw [if_neg h]

theorem excluir_categoria_snd (cid : String) (st : St) :
    (excluir_categoria cid st).2 = (delete_category cid st).2 := by
  simp only [excluir_categoria]
  by_cases h : (delete_category cid st).1 = true
  · rw [if_pos h]
  · rw [if_neg h]

theorem excluir_lancamento_snd (eid : String) (st : St) :
    (excluir_lancamento eid st).2 = (delete_expense eid st).2 := by
  simp only [excluir_lancamento]
  by_cases h : (delete_expense eid st).1 = true
  · rw [if_pos h]
  · rw [if_neg h]

/-- Every endpoint preserves well-formed storage and id uniqueness. -/
theorem op_preserves_wf_ids (st : St) (op : Op) (hwf : St.wf st) (hids : idsNodup st) :
    St.wf (applyOp op st) ∧ idsNodup (applyOp op st) := by
  cases op with
  | adicionar f =>
    show St.wf (adicionar f st).2 ∧ idsNodup (adicionar f st).2
    rcases adicionar_cases f st with h | ⟨d, cid, v, hd, hr, hv, h⟩
    · rw [h]; exact ⟨hwf, hids⟩
    · rw [h]
      obtain ⟨c, hc, hcid⟩ := resolve_some_mem hr
      rw [load_categories_raw_eq hwf.1] at hc
      obtain ⟨_, _, hcfix, _⟩ := hwf.1 c hc
      exact write_expense_preserves st _ _ v cid _ hwf hids
        (pyStrip_noWS_fix (noWS_pyStrftimeYmd d)) (pyStrip_idem _) (hcid ▸ hcfix)
        (pyStrip_idem _)
  | categoriasPost nome =>
    show St.wf (categorias_post nome st).2 ∧ idsNodup (categorias_post nome st).2
    simp only [categorias_post]
    by_cases h0 : pyStrip nome = ""
    · rw [if_pos h0]; exact ⟨hwf, hids⟩
    · rw [if_neg h0]
      rcases add_category_cases nome st with h | ⟨hne, nid, hnid, hnames2, h⟩
    -- the `hnames2` hypothesis is not needed here
      · show St.wf (add_category nome st) ∧ idsNodup (add_category nome st)
        rw [h]; exact ⟨hwf, hids⟩
      · show St.wf (add_category nome st) ∧ idsNodup (add_category nome st)
        rw [h]
        obtain ⟨vs, hvs, hpy⟩ := nextCatId?_some hnid
        have hfresh : ∀ c ∈ st.categories, c.id ≠ nid := by
          intro c hc heq
          have hc2 : c ∈ read_categories st := by
            apply (mem_pySorted _).mpr
            rw [load_categories_raw_eq hwf.1]
            exact hc
          obtain ⟨w, hw, hpw⟩ := parseIds_mem hvs hc2
          have hwle : w ≤ maxListD vs := maxListD_ge_mem hw
          have : pyInt? c.id = some (maxListD vs + 1) := by
            rw [heq, hpy, pyInt?_pyStrI]
          rw [hpw] at this
          have := Option.some.inj this
          omega
        constructor
        · constructor
          · intro c hc
            rcases List.mem_append.mp hc with h2 | h2
            · exact hwf.1 c h2
            · rw [List.mem_singleton] at h2
              subst h2
              refine ⟨?_, hne, ?_, pyStrip_idem _⟩
              · rw [hpy]; exact pyStrI_ne_empty _
              · rw [hpy]; exact pyStrip_noWS_fix (noWS_pyStrI _)
          · exact hwf.2
        · constructor
          · simp only [List.map_append, List.map_cons, List.map_nil]
            refine List.Nodup.append hids.1 (List.nodup_singleton _) ?_
            intro a ha hb
            rw [List.mem_singleton] at hb
            subst hb
            obtain ⟨c, hc, heq⟩ := List.mem_map.mp ha
            exact hfresh c hc heq
          · exact hids.2
  | renomearCategoria cid nome =>
    show St.wf (renomear_categoria cid nome st).2 ∧ idsNodup (renomear_categoria cid nome st).2
    rw [renomear_snd]
    rcases update_category_cases cid nome st with h | ⟨hne, _, h⟩
    · rw [h]; exact ⟨hwf, hids⟩
    · rw [h, load_categories_raw_eq hwf.1]
      refine ⟨⟨renameFirst_wf hwf.1 hne (pyStrip_idem _), hwf.2⟩, ?_, hids.2⟩
      rw [renameFirst_map_id]
      exact hids.1
  | excluirCategoria cid =>
    show St.wf (excluir_categoria cid st).2 ∧ idsNodup (excluir_categoria cid st).2
    rw [excluir_categoria_snd]
    rcases delete_category_cases cid st with h | h
    · rw [h]; exact ⟨hwf, hids⟩
    · rw [h, load_categories_raw_eq hwf.1]
      have hwf1 :
          St.wf { st with categories := st.categories.filter (fun c => decide (c.id ≠ cid)) } := by
        constructor
        · intro c hc
          exact hwf.1 c (List.mem_of_mem_filter hc)
        · exact hwf.2
      have hids1 :
          idsNodup { st with categories := st.categories.filter (fun c => decide (c.id ≠ cid)) } := by
        constructor
        · exact ((List.filter_sublist st.categories).map Category.id).nodup hids.1
        · exact hids.2
      exact reassign_preserves _ cid "1" hwf1 hids1 (by decide)
  | editarLancamento eid f =>
    show St.wf (editar_lancamento eid f st).2 ∧ idsNodup (editar_lancamento eid f st).2
    rcases editar_cases eid f st with h | ⟨d, cid, v, hd, hr, hv, h⟩
    · rw [h]; exact ⟨hwf, hids⟩
    · rw [h]
      rcases update_expense_cases eid (pyStrftimeYmd d) (pyStrip f.descricao) v cid
          (pyStrip f.anotacao) st with h2 | h2
      · rw [h2]; exact ⟨hwf, hids⟩
      · rw [h2, load_expenses_raw_eq hwf.2]
        obtain ⟨c, hc, hcid⟩ := resolve_some_mem hr
        rw [load_categories_raw_eq hwf.1] at hc
        obtain ⟨_, _, hcfix, _⟩ := hwf.1 c hc
        constructor
        · refine ⟨hwf.1, ?_⟩
          intro e he
          rcases mem_updateFirst he with hmem | ⟨e0, he0, rfl⟩
          · exact hwf.2 e hmem
          · obtain ⟨h1, h2, _, _, _, _, _⟩ := hwf.2 e0 he0
            exact ⟨h1, h2, pyStrip_noWS_fix (noWS_pyStrftimeYmd d), pyStrip_idem _,
              pyStrip_noWS_fix (noWS_formatPyFloat2 v), hcid ▸ hcfix, pyStrip_idem _⟩
        · refine ⟨hids.1, ?_⟩
          have hmid := updateFirst_map_id eid
            (fun e => { e with data := pyStrftimeYmd d, descricao := pyStrip f.descricao,
                               valor := formatPyFloat2 v, categoria_id := cid,
                               anotacao := pyStrip f.anotacao })
            (fun e => rfl) st.expenses
          rw [hmid]
          exact hids.2
  | excluirLancamento eid =>
    show St.wf (excluir_lancamento eid st).2 ∧ idsNodup (excluir_lancamento eid st).2
    rw [excluir_lancamento_snd]
    rcases delete_expense_cases eid st with h | h
    · rw [h]; exact ⟨hwf, hids⟩
    · rw [h, load_expenses_raw_eq hwf.2]
      constructor
      · exact ⟨hwf.1, fun e he => hwf.2 e (List.mem_of_mem_filter he)⟩
      · exact ⟨hids.1, ((List.filter_sublist st.expenses).map Expense.id).nodup hids.2⟩

/-- Every endpoint preserves case-insensitive uniqueness of category
names (on well-formed storage with unique ids). -/
theorem op_preserves_names (st : St) (op : Op) (hwf : St.wf st) (hids : idsNodup st)
    (hnames : namesNodup st) : namesNodup (applyOp op st) := by
  cases op with
  | adicionar f =>
    show namesNodup (adicionar f st).2
    rcases adicionar_cases f st with h | ⟨d, cid, v, hd, hr, hv, h⟩
    · rw [h]; exact hnames
    · rw [h]; exact hnames
  | categoriasPost nome =>
    show namesNodup (categorias_post nome st).2
    simp only [categorias_post]
    by_cases h0 : pyStrip nome = ""
    · rw [if_pos h0]; exact hnames
    · rw [if_neg h0]
      rcases add_category_cases nome st with h | ⟨hne, nid, hnid, hnames2, h⟩
      · show namesNodup (add_category nome st)
        rw [h]; exact hnames
      · show namesNodup (add_category nome st)
        rw [h]
        unfold namesNodup
        simp only [List.map_append, List.map_cons, List.map_nil]
        refine List.Nodup.append hnames (List.nodup_singleton _) ?_
        intro a ha hb
        rw [List.mem_singleton] at hb
        subst hb
        obtain ⟨c, hc, heq⟩ := List.mem_map.mp ha
        have hc2 : c ∈ read_categories st := by
          apply (mem_pySorted _).mpr
          rw [load_categories_raw_eq hwf.1]
          exact hc
        exact hnames2 c hc2 heq
  | renomearCategoria cid nome =>
    show namesNodup (renomear_categoria cid nome st).2
    rw [renomear_snd]
    rcases update_category_cases cid nome st with h | ⟨hne, hno, h⟩
    · rw [h]; exact hnames
    · rw [h, load_categories_raw_eq hwf.1]
      unfold namesNodup
      apply renameFirst_namesNodup hids.1 hnames
      intro c hc hcne heq
      apply hno c
      · rw [load_categories_raw_eq hwf.1]; exact hc
      · exact ⟨heq, hcne⟩
  | excluirCategoria cid =>
    show namesNodup (excluir_categoria cid st).2
    rw [excluir_categoria_snd]
    rcases delete_category_cases cid st with h | h
    · rw [h]; exact hnames
    · rw [h, load_categories_raw_eq hwf.1]
      set st1 : St :=
        { st with categories := st.categories.filter (fun c => decide (c.id ≠ cid)) } with hst1
      have hcats := (@reassign_eq_map st1 hwf.2 cid "1").2
      unfold namesNodup
      unfold namesNodup at hnames
      rw [hcats]
      exact ((List.filter_sublist st.categories).map (fun c => pyLower c.nome)).nodup hnames
  | editarLancamento eid f =>
    show namesNodup (editar_lancamento eid f st).2
    rcases editar_cases eid f st with h | ⟨d, cid, v, hd, hr, hv, h⟩
    · rw [h]; exact hnames
    · rw [h]
      rcases update_expense_cases eid (pyStrftimeYmd d) (pyStrip f.descricao) v cid
          (pyStrip f.anotacao) st with h2 | h2
      · rw [h2]; exact hnames
      · rw [h2]; exact hnames
  | excluirLancamento eid =>
    show namesNodup (excluir_lancamento eid st).2
    rw [excluir_lancamento_snd]
    rcases delete_expense_cases eid st with h | h
    · rw [h]; exact hnames
    · rw [h]; exact hnames

/-- C3: ids are integer-as-string, monotonically assigned and unique: on
a well-formed state with distinct ids, (i) the id `write_expense` would
assign (`get_next_id`) parses to an integer strictly greater than every
parsable stored expense id, (ii) whenever `add_category` computes its next
id it parses to an integer strictly greater than every parsable stored
category id, and (iii) any further request keeps the storage well formed
with all ids distinct (so no two co-existing rows ever share an id across
any sequence of requests). -/
theorem ids_monotone_and_unique (st : St) (op : Op) (hwf : St.wf st) (hids : idsNodup st) :
    (∃ N : Int, pyInt? (get_next_id (st.expenses.map Expense.id)) = some N ∧
      ∀ e ∈ st.expenses, ∀ v : Int, pyInt? e.id = some v → v < N) ∧
    (∀ s : String, nextCatId? (read_categories st) = some s →
      ∃ N : Int, pyInt? s = some N ∧
        ∀ c ∈ st.categories, ∀ v : Int, pyInt? c.id = some v → v < N) ∧
    (St.wf (applyOp op st) ∧ idsNodup (applyOp op st)) := by
  refine ⟨?_, ?_, op_preserves_wf_ids st op hwf hids⟩
  · obtain ⟨N, hN, hbound⟩ := get_next_id_spec (st.expenses.map Expense.id)
    exact ⟨N, hN, fun e he v hv =>
      hbound e.id (List.mem_map_of_mem Expense.id he) v hv⟩
  · intro s hs
    obtain ⟨vs, hvs, hpy⟩ := nextCatId?_some hs
    refine ⟨maxListD vs + 1, by rw [hpy, pyInt?_pyStrI], ?_⟩
    intro c hc v hv
    have hc2 : c ∈ read_categories st := by
      apply (mem_pySorted _).mpr
      rw [load_categories_raw_eq hwf.1]
      exact hc
    obtain ⟨w, hw, hpw⟩ := parseIds_mem hvs hc2
    have : v = w := by
      have := hpw.symm.trans hv
      exact (Option.some.inj this).symm
    subst this
    have := maxListD_ge_mem hw
    omega

/-- Closed instance of C3: creating a category through the endpoint keeps
`stW` well formed with distinct ids, and the next expense id parses as
`3`. -/
theorem ids_monotone_and_unique_witness :
    (St.wf (applyOp (Op.categoriasPost "Lazer") stW) ∧
      idsNodup (applyOp (Op.categoriasPost "Lazer") stW)) ∧
    pyInt? (get_next_id (stW.expenses.map Expense.id)) = some 3 :=
  have h := ids_monotone_and_unique stW (Op.categoriasPost "Lazer") (by decide) (by decide)
  ⟨h.2.2, by decide⟩

/-- C5: category names are unique case-insensitively and the operations
preserve this: `add_category` silently refuses a case-insensitive
duplicate name, `update_category` refuses to rename a category to a
different category's name up to case (returning `False`), both leaving
the stored categories unchanged, and every endpoint preserves the
uniqueness invariant. -/
theorem category_names_unique (st : St) (op : Op) (nome cid novo : String)
    (hwf : St.wf st) (hids : idsNodup st) (hnames : namesNodup st)
    (hdup1 : ∃ c ∈ load_categories_raw st, pyLower c.nome = pyLower (pyStrip nome))
    (hdup2 : ∃ c ∈ load_categories_raw st, c.id ≠ cid ∧ pyLower c.nome = pyLower (pyStrip novo)) :
    add_category nome st = st ∧
    update_category cid novo st = (false, st) ∧
    namesNodup (applyOp op st) := by
  refine ⟨?_, ?_, op_preserves_names st op hwf hids hnames⟩
  · simp only [add_category]
    by_cases h1 : pyStrip nome = ""
    · rw [if_pos h1]
    · rw [if_neg h1]
      obtain ⟨c, hc, hcl⟩ := hdup1
      rw [if_pos]
      rw [List.any_eq_true]
      exact ⟨c, (mem_pySorted _).mpr hc, by simp [hcl]⟩
  · simp only [update_category]
    by_cases h1 : pyStrip novo = ""
    · rw [if_pos h1]
    · rw [if_neg h1]
      by_cases h2 : (load_categories_raw st).all (fun c => decide (c.id ≠ cid))
      · rw [if_pos h2]
      · rw [if_neg h2]
        obtain ⟨c, hc, hcne, hcl⟩ := hdup2
        rw [if_pos]
        rw [List.any_eq_true]
        exact ⟨c, hc, by simp [hcl.symm, hcne]⟩

/-- Closed instance of C5: adding `" FOOD "` is refused silently, renaming
category `"2"` to `" OUTROS "` is refused with `False`, and a rename
request keeps the lowered names distinct. -/
theorem category_names_unique_witness :
    add_category " FOOD " stW = stW ∧
    update_category "2" " OUTROS " stW = (false, stW) ∧
    namesNodup (applyOp (Op.renomearCategoria "2" "Mercado") stW) :=
  category_names_unique stW (Op.renomearCategoria "2" "Mercado") " FOOD " "2" " OUTROS "
    (by decide) (by decide) (by decide) (by decide) (by decide)

/-- C2 counterexample: a legacy categories file that already lists
`"Outros"` after another name is migrated with `"Outros"` keeping its
position, so the migrated file does **not** contain the default category
`"Outros"` with id `"1"` (`"Food"` gets id `"1"`, `"Outros"` gets
`"2"`). -/
theorem upgrade_categories_not_outros_id1 :
    ¬ (["1", "Outros"] ∈ upgrade_categories_rows [["nome"], ["Food"], ["Outros"]]) := by
  decide

/-- C2 (amended): migrating a legacy categories file (non-empty after
dropping blank rows, header not starting with `"id"`) yields the current
schema: a `["id", "nome"]` header followed by rows `[str i, name]` with
`i = 1, 2, …`; the names contain `"Outros"`, are pairwise distinct, every
distinct legacy name appears exactly once, no other names appear, the
assigned ids are unique integer-as-string values — and `"Outros"` receives
id `"1"` when it does not occur among the legacy names. -/
theorem upgrade_categories_legacy (rows : List (List String))
    (h1 : rows.filter (fun r => !(rowBlank r)) ≠ [])
    (h2 : (((rows.filter (fun r => !(rowBlank r))).headD []).map pyStrip).headD "" ≠ "id") :
    ∃ finalNames : List String,
      upgrade_categories_rows rows =
        ["id", "nome"] :: (List.enumFrom 1 finalNames).map (fun p => [pyStr p.1, p.2]) ∧
      "Outros" ∈ finalNames ∧
      finalNames.Nodup ∧
      (∀ n ∈ legacyNames ((rows.filter (fun r => !(rowBlank r))).tail), finalNames.count n = 1) ∧
      (∀ n ∈ finalNames, n = "Outros" ∨
        n ∈ legacyNames ((rows.filter (fun r => !(rowBlank r))).tail)) ∧
      ((upgrade_categories_rows rows).tail.map (fun r => r.headD "")).Nodup ∧
      ("Outros" ∉ legacyNames ((rows.filter (fun r => !(rowBlank r))).tail) →
        ["1", "Outros"] ∈ upgrade_categories_rows rows) := by
  obtain ⟨header, rest, hk⟩ := List.exists_cons_of_ne_nil h1
  have hout : upgrade_categories_rows rows =
      ["id", "nome"] :: (List.enumFrom 1 (if "Outros" ∈ legacyNames rest
        then dedupKeepFirst [] (legacyNames rest)
        else "Outros" :: dedupKeepFirst [] (legacyNames rest))).map
          (fun p => [pyStr p.1, p.2]) := by
    simp only [upgrade_categories_rows]
    rw [hk]
    rw [hk] at h2
    simp only [List.headD_cons] at h2
    simp only []
    rw [if_neg h2]
  have htail : (rows.filter (fun r => !(rowBlank r))).tail = rest := by rw [hk]; rfl
  rw [htail]
  set names := legacyNames rest with hnames
  set final : List String := if "Outros" ∈ names then dedupKeepFirst [] names
    else "Outros" :: dedupKeepFirst [] names with hfinal
  have hmemfinal : ∀ n, n ∈ final ↔ (n = "Outros" ∨ n ∈ names) := by
    intro n
    rw [hfinal]
    by_cases ho : "Outros" ∈ names
    · rw [if_pos ho, mem_dedupKeepFirst]
      constructor
      · rintro ⟨h, _⟩; exact Or.inr h
      · rintro (rfl | h)
        · exact ⟨ho, List.not_mem_nil _⟩
        · exact ⟨h, List.not_mem_nil _⟩
    · rw [if_neg ho]
      rw [List.mem_cons, mem_dedupKeepFirst]
      constructor
      · rintro (rfl | ⟨h, _⟩)
        · exact Or.inl rfl
        · exact Or.inr h
      · rintro (rfl | h)
        · exact Or.inl rfl
        · exact Or.inr ⟨h, List.not_mem_nil _⟩
  have hnodupfinal : final.Nodup := by
    rw [hfinal]
    by_cases ho : "Outros" ∈ names
    · rw [if_pos ho]; exact nodup_dedupKeepFirst [] names
    · rw [if_neg ho]
      refine List.nodup_cons.mpr ⟨?_, nodup_dedupKeepFirst [] names⟩
      intro hmem
      exact ho (mem_dedupKeepFirst.mp hmem).1
  refine ⟨final, hout, ?_, hnodupfinal, ?_, fun n hn => (hmemfinal n).mp hn, ?_, ?_⟩
  · exact (hmemfinal "Outros").mpr (Or.inl rfl)
  · intro n hn
    exact List.count_eq_one_of_mem hnodupfinal ((hmemfinal n).mpr (Or.inr hn))
  · rw [hout]
    rw [List.tail_cons, List.map_map]
    have hcomp : ((fun r => List.headD r "") ∘ fun p : Nat × String => [pyStr p.1, p.2]) =
        (fun p : Nat × String => pyStr p.1) := by
      funext p
      rfl
    rw [hcomp]
    have hcomp2 : (fun p : Nat × String => pyStr p.1) = pyStr ∘ Prod.fst := rfl
    rw [hcomp2, ← List.map_map, List.enumFrom_map_fst]
    exact (List.nodup_range' 1 final.length).map pyStr_injective
  · intro ho
    rw [hout, hfinal, if_neg ho]
    have h1eq : pyStr 1 = "1" := by decide
    rw [List.enumFrom_cons, List.map_cons]
    rw [h1eq]
    exact List.mem_cons_of_mem _ (List.mem_cons_self _ _)

/-- Closed instance of the amended C2: migrating the legacy file with the
single data row `"Mercado"` produces the current schema with `"Outros"`
first. -/
theorem upgrade_categories_legacy_witness :
    ∃ finalNames : List String,
      upgrade_categories_rows [["nome"], ["Mercado"]] =
        ["id", "nome"] :: (List.enumFrom 1 finalNames).map (fun p => [pyStr p.1, p.2]) ∧
      "Outros" ∈ finalNames ∧
      finalNames.Nodup ∧
      (∀ n ∈ legacyNames (([["nome"], ["Mercado"]].filter
        (fun r => !(rowBlank r))).tail), finalNames.count n = 1) ∧
      (∀ n ∈ finalNames, n = "Outros" ∨
        n ∈ legacyNames (([["nome"], ["Mercado"]].filter (fun r => !(rowBlank r))).tail)) ∧
      ((upgrade_categories_rows [["nome"], ["Mercado"]]).tail.map (fun r => r.headD "")).Nodup ∧
      ("Outros" ∉ legacyNames (([["nome"], ["Mercado"]].filter (fun r => !(rowBlank r))).tail) →
        ["1", "Outros"] ∈ upgrade_categories_rows [["nome"], ["Mercado"]]) :=
  upgrade_categories_legacy [["nome"], ["Mercado"]] (by decide) (by decide)

/-- Closed instance of C8: deleting the default category of `stW` fails
and changes nothing. -/
theorem default_category_never_deletable_witness :
    delete_category "1" stW = (false, stW) :=
  default_category_never_deletable stW
